import Mathlib

/-!
# The selectivity micro-benchmark driver (`micro/selectivity/run_selectivity.cpp`)

A shallow embedding of the driver and proofs about it.

* `std::string` is a list of characters (`Str`).
* `double` durations are exact rationals; a non-finite value (the result of a
  division by zero) is `none`.
* The outside world (input files, the clock, the database results, the text
  that `operator<<` prints for a `double`) is an `Env`; what a run does to the
  outside world (files opened, statements issued, text written) is a `World`.
* An uncaught exception, `exit(EXIT_FAILURE)` and undefined behaviour are the
  three constructors of `Err`.
-/

set_option autoImplicit false

namespace RunSelectivity

/-- A `std::string`: a sequence of characters. -/
abbrev Str := List Char

/-! ## `replacePlaceholder` -/

/-- Models `str.find(frm)`: the least position at which `frm` occurs in `str`;
`none` is `std::string::npos`. The empty token occurs at position `0`. -/
def find (str frm : Str) : Option Nat :=
  if frm.isPrefixOf str then some 0
  else
    match str with
    | [] => none
    | _ :: rest => (find rest frm).map (· + 1)

/-- Models `str.replace(pos, len, to)`. -/
def replace (str : Str) (pos len : Nat) (to_ : Str) : Str :=
  str.take pos ++ to_ ++ str.drop (pos + len)

/-- Models `replacePlaceholder(str, from, to)`. -/
def replacePlaceholder (str frm to_ : Str) : Str :=
  match find str frm with
  | some start_pos => replace str start_pos frm.length to_
  | none => str

/-! ## The aggregator -/

/-- Models `*std::max_element(first, last)`: the first greatest element; `none` when
the range is empty (the returned iterator is `last`). -/
def max_element : List ℚ → Option ℚ
  | [] => none
  | first :: rest => some (rest.foldl (fun result x => if result < x then x else result) first)

/-- Models `*std::min_element(first, last)`: the first least element; `none` when
the range is empty. -/
def min_element : List ℚ → Option ℚ
  | [] => none
  | first :: rest => some (rest.foldl (fun result x => if x < result then x else result) first)

/-- Models `std::accumulate(first, last, init)`. -/
def accumulate (records : List ℚ) (init : ℚ) : ℚ :=
  records.foldl (fun acc x => acc + x) init

/-- Models `records.size() - 2`, computed on the 64-bit unsigned `size_t`. -/
def size_minus_two (size : Nat) : Nat :=
  (size + 2 ^ 64 - 2) % 2 ^ 64

/-- Failures of a run. -/
inductive Err where
  /-- an uncaught `std::runtime_error` carrying this message -/
  | runtime_error (msg : Str)
  /-- the usage message was printed and `exit(EXIT_FAILURE)` called -/
  | usage
  /-- undefined behaviour (dereferencing `end()`, signed overflow) -/
  | undefined
  deriving DecidableEq, Repr

/-- The three statements computing `average` from `records` in `run_retree`
and `run_smart`. The result is `none` when the division is by zero (the
`double` is then infinite or NaN). -/
def average (records : List ℚ) : Except Err (Option ℚ) :=
  match max_element records, min_element records with
  | some mx, some mn =>
    let maxminvals := mx + mn
    let sum := accumulate records 0 - maxminvals
    let denominator := size_minus_two records.length
    if denominator = 0 then .ok none else .ok (some (sum / (denominator : ℚ)))
  | _, _ => .error Err.undefined

/-! ### The trimmed mean as the specification words it -/

/-- The maximum value of a non-empty record. -/
def maximum_value : List ℚ → Option ℚ
  | [] => none
  | x :: xs => some (xs.foldr max x)

/-- The minimum value of a non-empty record. -/
def minimum_value : List ℚ → Option ℚ
  | [] => none
  | x :: xs => some (xs.foldr min x)

/-- The arithmetic mean of a list. -/
def arithmetic_mean (l : List ℚ) : ℚ :=
  l.sum / (l.length : ℚ)

/-- The specification's trimmed mean: remove one occurrence of the maximum
value and one occurrence of the minimum value, then take the arithmetic mean
of what is left. -/
def spec_trimmed_mean (records : List ℚ) : Option ℚ :=
  match maximum_value records, minimum_value records with
  | some hi, some lo => some (arithmetic_mean ((records.erase hi).erase lo))
  | _, _ => none

/-! ## The outside world -/

/-- What the driver reads from the outside world. -/
structure Env where
  /-- the contents of the file at a path; `none` when it cannot be opened -/
  file : Str → Option Str
  /-- the milliseconds the clock measured around the last statement of the
  given history of statements -/
  duration : List Str → ℚ
  /-- the text `result->ToString()` of the last statement of the given
  history of statements -/
  result : List Str → Str
  /-- the text `operator<<` writes for a `double` in the default format;
  `none` is a non-finite value -/
  double_text : Option ℚ → Str

/-- What a run has done to the outside world so far. -/
structure World where
  /-- paths opened for reading, in order -/
  opened : List Str
  /-- statements passed to `con.Query`, in order -/
  queries : List Str
  /-- the path `outputfile` was opened on, in append mode -/
  outputfile_path : Str
  /-- the text written to `outputfile` -/
  outputfile : Str
  /-- the text written to `std::cout` -/
  cout : Str

/-- Models `con.Query(sql)`. -/
def Query (w : World) (sql : Str) : World :=
  { w with queries := w.queries ++ [sql] }

/-- Models `outputfile.open(path, std::ios::app)`. -/
def outputfile_open (w : World) (path : Str) : World :=
  { w with outputfile_path := path }

/-- The text `operator<<` writes for an `int`. -/
def int_text (n : Int) : Str :=
  (toString n).toList

/-- The three path constants of the driver. -/
def LOAD_PATH : Str := "/volumn/Retree_exp/micro/selectivity/common/".toList
def SQL_PATH : Str := "/volumn/Retree_exp/micro/selectivity/workloads/".toList
def MODEL_PATH : Str := "/volumn/Retree_exp/workloads/".toList

/-- The configuration, with the defaults of the source. The three `int`
fields hold values of the 32-bit range: `times` is never assigned and the two
others are only assigned results of `atoi`. -/
structure Config where
  workload : Str := "nyc-taxi-green-dec-2016".toList
  model : Str := "nyc-taxi-green-dec-2016_d11_l1491_n2981_20250112085333".toList
  model_type : Str := "rf".toList
  scale : Str := "1G".toList
  thread : Str := "4".toList
  times : Int := 10
  optimization_level : Int := 3
  debug : Int := 0

/-! ## Command line -/

/-- Looks an option character up in an option string: `none` when it is not
an option, otherwise whether it takes an argument. -/
def getopt_lookup : Str → Char → Option Bool
  | [], _ => none
  | x :: rest, c =>
    if x = c ∧ c ≠ ':' then some (rest.head? = some ':') else getopt_lookup rest c

/-- The successive results `(opt, optarg)` of `getopt(argc, argv, optstring)`
until it returns `-1`, after getopt(3): `cluster` is the unread rest of the
element being scanned and `args` the elements after it. An unknown option
character and a missing argument give `'?'`; `--` ends the scan; an element
that is not an option is skipped. -/
def getopt_events (optstring : Str) : Str → List Str → List (Char × Str)
  | c :: more, args =>
    match getopt_lookup optstring c with
    | none => ('?', []) :: getopt_events optstring more args
    | some false => (c, []) :: getopt_events optstring more args
    | some true =>
      match more with
      | d :: more' => (c, d :: more') :: getopt_events optstring [] args
      | [] =>
        match args with
        | optarg :: rest => (c, optarg) :: getopt_events optstring [] rest
        | [] => [('?', [])]
  | [], [] => []
  | [], arg :: rest =>
    match arg with
    | ['-', '-'] => []
    | '-' :: c :: more => getopt_events optstring (c :: more) rest
    | _ => getopt_events optstring [] rest
termination_by cluster args => (args.length, cluster.length)

/-- Models `isspace` in the C locale: the space and the characters 9 to 13. -/
def isspace (c : Char) : Bool :=
  c = ' ' || (9 ≤ c.toNat && c.toNat ≤ 13)

/-- Models `atoi(s)` as the C library of the platform computes it,
`(int) strtol(s, NULL, 10)`: leading white space, an optional sign, then
decimal digits (`0` when there is no digit); `strtol` saturates at the bounds
of the 64-bit `long`, and the conversion to the 32-bit `int` keeps the value
modulo `2^32` in the range `-2^31 .. 2^31 - 1`. -/
def atoi (s : Str) : Int :=
  let s := s.dropWhile isspace
  let digits (t : Str) : Int :=
    ((t.takeWhile Char.isDigit).foldl (fun acc d => 10 * acc + (d.toNat - 48)) 0 : Nat)
  let value : Int :=
    match s with
    | '-' :: t => - digits t
    | '+' :: t => digits t
    | _ => digits s
  let long : Int := max (-9223372036854775808) (min value 9223372036854775807)
  (long + 2147483648) % 4294967296 - 2147483648

/-- The `switch` of `parse_args`, run over the successive results of
`getopt`. -/
def parse_args_loop : List (Char × Str) → Config → Except Err Config
  | [], config => .ok config
  | (opt, optarg) :: more, config =>
    if opt = 'w' then parse_args_loop more { config with workload := optarg }
    else if opt = 'm' then parse_args_loop more { config with model := optarg }
    else if opt = 's' then parse_args_loop more { config with scale := optarg }
    else if opt = 't' then parse_args_loop more { config with thread := optarg }
    else if opt = 'o' then parse_args_loop more { config with optimization_level := atoi optarg }
    else if opt = 'd' then parse_args_loop more { config with debug := atoi optarg }
    else .error Err.usage

/-- Models `parse_args(argc, argv)`; `argv` includes the program name. -/
def parse_args (argv : List Str) : Except Err Config :=
  parse_args_loop (getopt_events "t:w:o:m:s:n:d:".toList [] argv.tail) {}

/-! ## Files -/

/-- Models `read_file(filename)`. -/
def read_file (env : Env) (filename : Str) (w : World) : Except Err (Str × World) :=
  match env.file filename with
  | none => .error (Err.runtime_error ("Unable to open file: ".toList ++ filename))
  | some contents => .ok (contents, { w with opened := w.opened ++ [filename] })

/-- The loop `while (std::getline(file, line)) predicates.push_back(line);`
over the unread characters of the file; `line` is what the current `getline`
has extracted so far. At end of file a `getline` that extracted nothing
fails and ends the loop. -/
def getline_loop : Str → Str → List Str
  | [], line => if line = [] then [] else [line]
  | c :: rest, line =>
    if c = '\n' then line :: getline_loop rest [] else getline_loop rest (line ++ [c])

/-- Models `read_predicates(filename)`. -/
def read_predicates (env : Env) (filename : Str) (w : World) :
    Except Err (List Str × World) :=
  match env.file filename with
  | none => .error (Err.runtime_error ("Unable to open predicate file: ".toList ++ filename))
  | some contents => .ok (getline_loop contents [], { w with opened := w.opened ++ [filename] })

/-! ## The runs -/

/-- The loop `while (count--) { ... records.push_back(duration.count()); }`
for a non-negative `count`. -/
def trial_loop (env : Env) (sql : Str) : Nat → List ℚ → World → List ℚ × World
  | 0, records, w => (records, w)
  | count + 1, records, w =>
    let w := Query w sql
    let duration := env.duration w.queries
    trial_loop env sql count (records ++ [duration]) w

/-- The statements `records.clear(); count = config.times; while (count--) ...`.
A negative `count` is decremented until it overflows: undefined. -/
def trials (env : Env) (sql : Str) (times : Int) (w : World) :
    Except Err (List ℚ × World) :=
  if times < 0 then .error Err.undefined
  else .ok (trial_loop env sql times.toNat [] w)

/-- The body of the `for` loop of `run_retree`. -/
def run_retree_body (env : Env) (config : Config) (sql_path : Str) (predicate : Str)
    (w : World) : Except Err World := do
  let (sql, w) ← read_file env (sql_path ++ "query.sql".toList) w
  let sql := replacePlaceholder sql "?".toList config.model
  let sql := replacePlaceholder sql "?".toList predicate
  let (records, w) ← trials env sql config.times w
  let average ← average records
  let w := { w with outputfile := (w.outputfile ++ config.workload ++ ",".toList
    ++ config.model ++ ",".toList ++ config.model_type ++ ",".toList ++ predicate
    ++ ",".toList ++ config.scale ++ ",".toList ++ config.thread ++ ",".toList
    ++ int_text config.optimization_level ++ ",".toList ++ env.double_text average
    ++ "\n".toList) }
  let w := { w with cout := (w.cout ++ config.workload ++ ",".toList
    ++ config.model ++ ",".toList ++ config.model_type ++ ",".toList ++ predicate
    ++ ",".toList ++ config.scale ++ ",".toList ++ config.thread ++ ",".toList
    ++ int_text config.optimization_level ++ ",".toList ++ env.double_text average
    ++ "\n".toList) }
  pure w

/-- A range-based `for` loop without `break`. -/
def for_each (body : Str → World → Except Err World) : List Str → World → Except Err World
  | [], w => .ok w
  | predicate :: rest, w => do
    let w ← body predicate w
    for_each body rest w

/-- Models `con.Query(read_file(path))`. -/
def load_script (env : Env) (path : Str) (w : World) : Except Err World := do
  let (script, w) ← read_file env path w
  pure (Query w script)

/-- The baseline run. -/
def run_retree (env : Env) (config : Config) (w : World) : Except Err World := do
  let sql_path := SQL_PATH ++ config.workload ++ "/".toList
  let w := outputfile_open w (sql_path ++ "output.csv".toList)
  let w := Query w "PRAGMA disable_verification;".toList
  let w := Query w "set allow_extensions_metadata_mismatch=true;".toList
  let w ← load_script env (LOAD_PATH ++ "load_inference_function.sql".toList) w
  let w ← if config.optimization_level ≥ 1 then do
      let w ← load_script env (LOAD_PATH ++ "load_convert_rule.sql".toList) w
      load_script env (LOAD_PATH ++ "load_prune_rule.sql".toList) w
    else pure w
  let w ← if config.optimization_level = 2 then
      load_script env (LOAD_PATH ++ "load_merge_rule.sql".toList) w
    else pure w
  let (predicates, w) ← read_predicates env (sql_path ++ "predicates.txt".toList) w
  let (data, w) ← read_file env (sql_path ++ "load_data.sql".toList) w
  let data := replacePlaceholder data "?".toList config.scale
  let threads := replacePlaceholder "set threads = ?;".toList "?".toList config.thread
  let w := Query w data
  let w := Query w threads
  for_each (run_retree_body env config sql_path) predicates w

/-- The body of the `for` loop of `run_smart`. -/
def run_smart_body (env : Env) (config : Config) (sql_path : Str) (predicate : Str)
    (w : World) : Except Err World := do
  let (sql, w) ← read_file env (sql_path ++ "query_".toList ++ predicate ++ ".sql".toList) w
  let sql := replacePlaceholder sql "?".toList config.model
  let (records, w) ← trials env sql config.times w
  let average ← average records
  let w := { w with outputfile := (w.outputfile ++ config.workload ++ ",".toList
    ++ config.model ++ ",".toList ++ config.model_type ++ ",".toList ++ predicate
    ++ ",".toList ++ config.scale ++ ",".toList ++ config.thread ++ ",".toList
    ++ int_text config.optimization_level ++ ",".toList ++ env.double_text average
    ++ "\n".toList) }
  let w := { w with cout := (w.cout ++ config.workload ++ ",".toList
    ++ config.model ++ ",".toList ++ config.model_type ++ ",".toList ++ predicate
    ++ ",".toList ++ config.scale ++ ",".toList ++ config.thread ++ ",".toList
    ++ int_text config.optimization_level ++ ",".toList ++ env.double_text average
    ++ "\n".toList) }
  pure w

/-- The alternative run. -/
def run_smart (env : Env) (config : Config) (w : World) : Except Err World := do
  let sql_path := SQL_PATH ++ config.workload ++ "/".toList
  let w := outputfile_open w (sql_path ++ "output.csv".toList)
  let w := Query w "PRAGMA disable_verification;".toList
  let w := Query w "set allow_extensions_metadata_mismatch=true;".toList
  let w ← load_script env (LOAD_PATH ++ "load_inference_function.sql".toList) w
  let (predicates, w) ← read_predicates env (sql_path ++ "predicates.txt".toList) w
  let (data, w) ← read_file env (sql_path ++ "load_data.sql".toList) w
  let data := replacePlaceholder data "?".toList config.scale
  let threads := replacePlaceholder "set threads = ?;".toList "?".toList config.thread
  let w := Query w data
  let w := Query w threads
  for_each (run_smart_body env config sql_path) predicates w

/-- The body of the `for` loop of `debug`, up to its `break`. -/
def debug_body (env : Env) (config : Config) (sql_path : Str) (predicate : Str)
    (w : World) : Except Err World := do
  let (sql, w) ← read_file env (sql_path ++ "query.sql".toList) w
  let sql := replacePlaceholder sql "?".toList config.model
  let sql := replacePlaceholder sql "?".toList predicate
  let w := Query w sql
  let w := { w with outputfile := w.outputfile ++ env.result w.queries ++ "\n".toList }
  let average := some (env.duration w.queries)
  let w := { w with outputfile := (w.outputfile ++ config.workload ++ ",".toList
    ++ config.model ++ ",".toList ++ config.model_type ++ ",".toList ++ predicate
    ++ ",".toList ++ config.scale ++ ",".toList ++ config.thread ++ ",".toList
    ++ int_text config.optimization_level ++ ",".toList ++ env.double_text average
    ++ "\n".toList) }
  let w := { w with cout := (w.cout ++ config.workload ++ ",".toList
    ++ config.model ++ ",".toList ++ config.model_type ++ ",".toList ++ predicate
    ++ ",".toList ++ config.scale ++ ",".toList ++ config.thread ++ ",".toList
    ++ int_text config.optimization_level ++ ",".toList ++ env.double_text average
    ++ "\n".toList) }
  pure w

/-- A range-based `for` loop whose body ends in `break`. -/
def for_each_break (body : Str → World → Except Err World) :
    List Str → World → Except Err World
  | [], w => .ok w
  | predicate :: _, w => body predicate w

/-- The debug run. -/
def debug (env : Env) (config : Config) (w : World) : Except Err World := do
  let w := Query w "PRAGMA disable_verification;".toList
  let w := Query w "set allow_extensions_metadata_mismatch=true;".toList
  let w ← load_script env (LOAD_PATH ++ "load_inference_function.sql".toList) w
  let w ← if config.optimization_level > 1 then do
      let w ← load_script env (LOAD_PATH ++ "load_convert_rule.sql".toList) w
      load_script env (LOAD_PATH ++ "load_prune_rule.sql".toList) w
    else pure w
  let w ← if config.optimization_level = 3 then
      load_script env (LOAD_PATH ++ "load_merge_rule.sql".toList) w
    else if config.optimization_level = 4 then
      load_script env (LOAD_PATH ++ "load_naive_merge_rule.sql".toList) w
    else pure w
  let sql_path := SQL_PATH ++ config.workload ++ "/".toList
  let (predicates, w) ← read_predicates env (sql_path ++ "predicates.txt".toList) w
  let w := outputfile_open w (sql_path ++ "output-debug.csv".toList)
  let threads := replacePlaceholder "set threads = ?;".toList "?".toList config.thread
  let w := Query w threads
  let (data, w) ← read_file env (sql_path ++ "load_data.sql".toList) w
  let w := Query w (replacePlaceholder data "?".toList config.scale)
  let w := { w with outputfile := w.outputfile ++ env.result w.queries ++ "\n".toList }
  for_each_break (debug_body env config sql_path) predicates w

/-- The entry point: parse, pin the model type and the thread count, dispatch. -/
def main (env : Env) (argv : List Str) (w : World) : Except Err World := do
  let config ← parse_args argv
  let config := { config with model_type := "dt".toList }
  let config := { config with thread := "1".toList }
  if config.optimization_level ≤ 2 then
    if config.debug = 0 then run_retree env config w else debug env config w
  else
    run_smart env config w

/-! ## Vocabulary of the statements

Abbreviations for expressions of the source that the theorems mention, the
expected shape of a report row, and the concrete environments of the
witnesses. -/

/-- The expected report row for a predicate and a latency: the eight
fields in the order workload, model, model type, predicate, scale, thread,
optimization level, latency, joined by commas and ended by a newline. -/
def report_row (env : Env) (config : Config) (predicate : Str) (latency : Option ℚ) : Str :=
  ",".toList.intercalate [config.workload, config.model, config.model_type, predicate,
    config.scale, config.thread, int_text config.optimization_level,
    env.double_text latency] ++ "\n".toList

/-- The contents of a readable file. -/
def contents (env : Env) (path : Str) : Str :=
  (env.file path).getD []

/-- An environment in which every file is empty. -/
def empty_env : Env where
  file := fun _ => some []
  duration := fun _ => 1
  result := fun _ => []
  double_text := fun _ => "1".toList

/-- An environment in which every file holds the single line `p`. -/
def one_predicate_env : Env where
  file := fun _ => some "p\n".toList
  duration := fun _ => 1
  result := fun _ => []
  double_text := fun _ => "1".toList

/-- The world before a run. -/
def initial_world : World :=
  { opened := [], queries := [], outputfile_path := [], outputfile := [], cout := [] }

/-- The local `sql_path` of the runs: `SQL_PATH + config.workload + "/"`. -/
def sql_path_of (config : Config) : Str :=
  SQL_PATH ++ config.workload ++ "/".toList

/-- The predicates of a run: what `read_predicates` returns on
`sql_path + "predicates.txt"`. -/
def predicates_of (env : Env) (config : Config) : List Str :=
  getline_loop (contents env (sql_path_of config ++ "predicates.txt".toList)) []

/-- The local `sql` of `run_retree` and `debug` for a predicate. -/
def query_of (env : Env) (config : Config) (predicate : Str) : Str :=
  replacePlaceholder (replacePlaceholder
    (contents env (sql_path_of config ++ "query.sql".toList)) "?".toList config.model)
    "?".toList predicate

/-- The local `sql` of `run_smart` for a predicate. -/
def smart_query_of (env : Env) (config : Config) (predicate : Str) : Str :=
  replacePlaceholder
    (contents env (sql_path_of config ++ "query_".toList ++ predicate ++ ".sql".toList))
    "?".toList config.model

/-- The locals `data` and `threads` of the runs: the data loader at the
configured scale and the thread statement. -/
def data_and_threads (env : Env) (config : Config) : List Str :=
  [replacePlaceholder (contents env (sql_path_of config ++ "load_data.sql".toList))
      "?".toList config.scale,
    replacePlaceholder "set threads = ?;".toList "?".toList config.thread]

/-- The three statements every run starts with. -/
def preamble (env : Env) : List Str :=
  ["PRAGMA disable_verification;".toList,
    "set allow_extensions_metadata_mismatch=true;".toList,
    contents env (LOAD_PATH ++ "load_inference_function.sql".toList)]

/-- The rule scripts the two `if` statements of `run_retree` load at an
optimization level. -/
def retree_rules (level : Int) : List Str :=
  (if level ≥ 1 then [LOAD_PATH ++ "load_convert_rule.sql".toList,
      LOAD_PATH ++ "load_prune_rule.sql".toList] else [])
    ++ (if level = 2 then [LOAD_PATH ++ "load_merge_rule.sql".toList] else [])

/-- The rule scripts the `if` statements of `debug` load at an optimization
level. -/
def debug_rules (level : Int) : List Str :=
  (if level > 1 then [LOAD_PATH ++ "load_convert_rule.sql".toList,
      LOAD_PATH ++ "load_prune_rule.sql".toList] else [])
    ++ (if level = 3 then [LOAD_PATH ++ "load_merge_rule.sql".toList]
        else if level = 4 then [LOAD_PATH ++ "load_naive_merge_rule.sql".toList] else [])

/-- The samples a timed loop of `count` iterations records for the query
`sql` when the statements of `history` have been issued before it: the
measurement of the clock around each successive issue of `sql`. -/
def samples (env : Env) (history : List Str) (sql : Str) (count : Nat) : List ℚ :=
  (List.range count).map (fun j => env.duration (history ++ List.replicate (j + 1) sql))

/-- The trial records of a loop that issues each query of `sqls`, in order,
`count` times after `history`: one record of samples per query. -/
def trial_records (env : Env) (count : Nat) : List Str → List Str → List (List ℚ)
  | [], _ => []
  | sql :: rest, history =>
    samples env history sql count
      :: trial_records env count rest (history ++ List.replicate count sql)

/-- The latency a run prints for a trial record: its `average`. -/
def latency_of (records : List ℚ) : Option ℚ :=
  match average records with
  | .ok a => a
  | .error _ => none

/-- The latencies of a loop over predicates whose iteration for `p` prints
`lat p history` and then issues the statements `qs p`. -/
def loop_latencies (lat : Str → List Str → Option ℚ) (qs : Str → List Str) :
    List Str → List Str → List (Option ℚ)
  | [], _ => []
  | p :: rest, history => lat p history :: loop_latencies lat qs rest (history ++ qs p)

/-! # Theorems -/

/-! ## Lemmas on the aggregator -/

theorem foldl_max_spec (l : List ℚ) (a : ℚ) :
    (l.foldl (fun result x => if result < x then x else result) a = a ∨
      l.foldl (fun result x => if result < x then x else result) a ∈ l) ∧
    a ≤ l.foldl (fun result x => if result < x then x else result) a ∧
    ∀ x ∈ l, x ≤ l.foldl (fun result x => if result < x then x else result) a := by
  induction l generalizing a with
  | nil => simp
  | cons y ys ih =>
    simp only [List.foldl_cons, List.mem_cons]
    obtain ⟨h1, h2, h3⟩ := ih (if a < y then y else a)
    refine ⟨?_, ?_, ?_⟩
    · rcases h1 with h1 | h1
      · by_cases hay : a < y
        · simp only [hay, if_true] at h1 ⊢; right; left; exact h1
        · simp only [hay, if_false] at h1 ⊢; left; exact h1
      · right; right; exact h1
    · by_cases hay : a < y
      · simp only [hay, if_true] at h2 ⊢; exact le_trans (le_of_lt hay) h2
      · simp only [hay, if_false] at h2 ⊢; exact h2
    · intro x hx
      rcases hx with hx | hx
      · subst hx
        by_cases hay : a < x
        · simp only [hay, if_true] at h2 ⊢; exact h2
        · simp only [hay, if_false] at h2 ⊢; exact le_trans (not_lt.mp hay) h2
      · exact h3 x hx

theorem foldl_min_spec (l : List ℚ) (a : ℚ) :
    (l.foldl (fun result x => if x < result then x else result) a = a ∨
      l.foldl (fun result x => if x < result then x else result) a ∈ l) ∧
    l.foldl (fun result x => if x < result then x else result) a ≤ a ∧
    ∀ x ∈ l, l.foldl (fun result x => if x < result then x else result) a ≤ x := by
  induction l generalizing a with
  | nil => simp
  | cons y ys ih =>
    simp only [List.foldl_cons, List.mem_cons]
    obtain ⟨h1, h2, h3⟩ := ih (if y < a then y else a)
    refine ⟨?_, ?_, ?_⟩
    · rcases h1 with h1 | h1
      · by_cases hay : y < a
        · simp only [hay, if_true] at h1 ⊢; right; left; exact h1
        · simp only [hay, if_false] at h1 ⊢; left; exact h1
      · right; right; exact h1
    · by_cases hay : y < a
      · simp only [hay, if_true] at h2 ⊢; exact le_trans h2 (le_of_lt hay)
      · simp only [hay, if_false] at h2 ⊢; exact h2
    · intro x hx
      rcases hx with hx | hx
      · subst hx
        by_cases hay : x < a
        · simp only [hay, if_true] at h2 ⊢; exact h2
        · simp only [hay, if_false] at h2 ⊢; exact le_trans h2 (not_lt.mp hay)
      · exact h3 x hx

/-- On a non-empty range `max_element` returns an element that bounds every
element from above. -/
theorem max_element_spec (records : List ℚ) (hne : records ≠ []) :
    ∃ mx, max_element records = some mx ∧ mx ∈ records ∧ ∀ x ∈ records, x ≤ mx := by
  cases records with
  | nil => exact absurd rfl hne
  | cons a l =>
    obtain ⟨h1, h2, h3⟩ := foldl_max_spec l a
    refine ⟨_, rfl, ?_, ?_⟩
    · rcases h1 with h1 | h1
      · rw [h1]; exact List.mem_cons_self _ _
      · exact List.mem_cons_of_mem _ h1
    · intro x hx
      rcases List.mem_cons.mp hx with hx | hx
      · rw [hx]; exact h2
      · exact h3 x hx

/-- On a non-empty range `min_element` returns an element that bounds every
element from below. -/
theorem min_element_spec (records : List ℚ) (hne : records ≠ []) :
    ∃ mn, min_element records = some mn ∧ mn ∈ records ∧ ∀ x ∈ records, mn ≤ x := by
  cases records with
  | nil => exact absurd rfl hne
  | cons a l =>
    obtain ⟨h1, h2, h3⟩ := foldl_min_spec l a
    refine ⟨_, rfl, ?_, ?_⟩
    · rcases h1 with h1 | h1
      · rw [h1]; exact List.mem_cons_self _ _
      · exact List.mem_cons_of_mem _ h1
    · intro x hx
      rcases List.mem_cons.mp hx with hx | hx
      · rw [hx]; exact h2
      · exact h3 x hx

theorem accumulate_eq (records : List ℚ) (init : ℚ) :
    accumulate records init = init + records.sum := by
  unfold accumulate
  induction records generalizing init with
  | nil => simp
  | cons x xs ih => rw [List.foldl_cons, ih, List.sum_cons, add_assoc]

theorem size_minus_two_of_le (n : Nat) (h2 : 2 ≤ n) (hsize : n < 2 ^ 64) :
    size_minus_two n = n - 2 := by
  have hpow : (2 : Nat) ^ 64 = 18446744073709551616 := by norm_num
  rw [hpow] at hsize
  rw [size_minus_two, hpow]
  omega

/-- The value of `average` on a record of at least three samples, in terms
of any greatest and any least sample. -/
theorem average_of_extremes (records : List ℚ) (mx mn : ℚ)
    (h3 : 3 ≤ records.length) (hsize : records.length < 2 ^ 64)
    (hmx : mx ∈ records ∧ ∀ x ∈ records, x ≤ mx)
    (hmn : mn ∈ records ∧ ∀ x ∈ records, mn ≤ x) :
    average records = .ok (some ((records.sum - mx - mn) / ((records.length : ℚ) - 2))) := by
  have hne : records ≠ [] := by
    intro h; rw [h] at h3; simp at h3
  obtain ⟨mx', e1, m1, b1⟩ := max_element_spec records hne
  obtain ⟨mn', e2, m2, b2⟩ := min_element_spec records hne
  have hx : mx' = mx := le_antisymm (hmx.2 _ m1) (b1 _ hmx.1)
  have hn : mn' = mn := le_antisymm (b2 _ hmn.1) (hmn.2 _ m2)
  subst hx hn
  have hd : size_minus_two records.length = records.length - 2 :=
    size_minus_two_of_le _ (by omega) hsize
  have hd0 : records.length - 2 ≠ 0 := by omega
  have hcast : ((records.length - 2 : Nat) : ℚ) = (records.length : ℚ) - 2 := by
    rw [Nat.cast_sub (by omega)]; norm_num
  unfold average
  rw [e1, e2]
  dsimp only
  have hsum : 0 + records.sum - (mx' + mn') = records.sum - mx' - mn' := by ring
  rw [hd, if_neg hd0, accumulate_eq, hcast, hsum]

theorem foldr_max_spec (l : List ℚ) (a : ℚ) :
    (l.foldr max a = a ∨ l.foldr max a ∈ l) ∧ a ≤ l.foldr max a ∧
      ∀ x ∈ l, x ≤ l.foldr max a := by
  induction l with
  | nil => simp
  | cons y ys ih =>
    obtain ⟨h1, h2, h3⟩ := ih
    simp only [List.foldr_cons, List.mem_cons]
    refine ⟨?_, le_trans h2 (le_max_right _ _), ?_⟩
    · rcases max_choice y (ys.foldr max a) with h | h
      · right; left; exact h
      · rw [h]
        rcases h1 with h1 | h1
        · left; exact h1
        · right; right; exact h1
    · intro x hx
      rcases hx with hx | hx
      · rw [hx]; exact le_max_left _ _
      · exact le_trans (h3 x hx) (le_max_right _ _)

theorem foldr_min_spec (l : List ℚ) (a : ℚ) :
    (l.foldr min a = a ∨ l.foldr min a ∈ l) ∧ l.foldr min a ≤ a ∧
      ∀ x ∈ l, l.foldr min a ≤ x := by
  induction l with
  | nil => simp
  | cons y ys ih =>
    obtain ⟨h1, h2, h3⟩ := ih
    simp only [List.foldr_cons, List.mem_cons]
    refine ⟨?_, le_trans (min_le_right _ _) h2, ?_⟩
    · rcases min_choice y (ys.foldr min a) with h | h
      · right; left; exact h
      · rw [h]
        rcases h1 with h1 | h1
        · left; exact h1
        · right; right; exact h1
    · intro x hx
      rcases hx with hx | hx
      · rw [hx]; exact min_le_left _ _
      · exact le_trans (min_le_right _ _) (h3 x hx)

theorem maximum_value_spec (records : List ℚ) (hne : records ≠ []) :
    ∃ hi, maximum_value records = some hi ∧ hi ∈ records ∧ ∀ x ∈ records, x ≤ hi := by
  cases records with
  | nil => exact absurd rfl hne
  | cons a l =>
    obtain ⟨h1, h2, h3⟩ := foldr_max_spec l a
    refine ⟨_, rfl, ?_, ?_⟩
    · rcases h1 with h1 | h1
      · rw [h1]; exact List.mem_cons_self _ _
      · exact List.mem_cons_of_mem _ h1
    · intro x hx
      rcases List.mem_cons.mp hx with hx | hx
      · rw [hx]; exact h2
      · exact h3 x hx

theorem minimum_value_spec (records : List ℚ) (hne : records ≠ []) :
    ∃ lo, minimum_value records = some lo ∧ lo ∈ records ∧ ∀ x ∈ records, lo ≤ x := by
  cases records with
  | nil => exact absurd rfl hne
  | cons a l =>
    obtain ⟨h1, h2, h3⟩ := foldr_min_spec l a
    refine ⟨_, rfl, ?_, ?_⟩
    · rcases h1 with h1 | h1
      · rw [h1]; exact List.mem_cons_self _ _
      · exact List.mem_cons_of_mem _ h1
    · intro x hx
      rcases List.mem_cons.mp hx with hx | hx
      · rw [hx]; exact h2
      · exact h3 x hx

/-- After one occurrence of a greatest sample is removed from a record of at
least two samples, a least sample is still present. -/
theorem least_mem_erase_greatest (records : List ℚ) (hi lo : ℚ)
    (h2 : 2 ≤ records.length)
    (hhi : hi ∈ records ∧ ∀ x ∈ records, x ≤ hi)
    (hlo : lo ∈ records ∧ ∀ x ∈ records, lo ≤ x) :
    lo ∈ records.erase hi := by
  by_cases hne : lo = hi
  · have hlen : (records.erase hi).length = records.length - 1 :=
      List.length_erase_of_mem hhi.1
    cases hrest : records.erase hi with
    | nil => rw [hrest] at hlen; simp at hlen; omega
    | cons y ys =>
      have hy : y ∈ records := List.mem_of_mem_erase (by rw [hrest]; exact List.mem_cons_self _ _)
      have : y = lo := le_antisymm (by rw [hne]; exact hhi.2 y hy) (hlo.2 y hy)
      rw [this]; exact List.mem_cons_self _ _
  · exact (List.mem_erase_of_ne hne).mpr hlo.1

/-- Claim C6, as the code computes it: on a record of `c ≤ 2` samples the
aggregator evaluates the denominator `records.size() - 2` only for `c = 1` and
`c = 2`. For `c = 2` it is zero and the quotient is not finite; for `c = 1` the
unsigned subtraction wraps to the positive value `2^64 - 1` and the result is
the finite quotient `(x - (x + x)) / (2^64 - 1)`; for `c = 0` the code
dereferences `max_element` of an empty range before any denominator is
computed. The denominator is never negative. -/
theorem average_of_small_record (records : List ℚ) (hc : records.length ≤ 2) :
    (records.length = 0 ∧ average records = .error Err.undefined) ∨
      (∃ x, records = [x] ∧ size_minus_two records.length = 2 ^ 64 - 1 ∧
        average records = .ok (some ((x - (x + x)) / ((2 ^ 64 - 1 : Nat) : ℚ)))) ∨
      (records.length = 2 ∧ size_minus_two records.length = 0 ∧
        average records = .ok none) := by
  have hpow : (2 : Nat) ^ 64 = 18446744073709551616 := by norm_num
  match records, hc with
  | [], _ => exact Or.inl ⟨rfl, rfl⟩
  | [x], _ =>
    have h1 : size_minus_two 1 = 2 ^ 64 - 1 := by rw [size_minus_two, hpow]
    have hne : (18446744073709551616 - 1 : Nat) ≠ 0 := by norm_num
    refine Or.inr (Or.inl ⟨x, rfl, h1, ?_⟩)
    simp only [average, max_element, min_element, List.foldl_nil, accumulate, List.foldl_cons,
      List.length_singleton, h1, hpow, hne, if_false, zero_add]
  | [x, y], _ =>
    have hd : size_minus_two 2 = 0 := by rw [size_minus_two, hpow]
    obtain ⟨mx, e1, -, -⟩ := max_element_spec [x, y] (by simp)
    obtain ⟨mn, e2, -, -⟩ := min_element_spec [x, y] (by simp)
    refine Or.inr (Or.inr ⟨rfl, hd, ?_⟩)
    unfold average
    rw [e1, e2]
    dsimp only
    rw [show [x, y].length = 2 from rfl, hd, if_pos rfl]
  | _ :: _ :: _ :: _, h => simp at h

/-- Witness of C6 at the record `[5, 7]`. -/
theorem average_of_small_record_witness :
    [(5 : ℚ), 7].length ≤ 2 ∧
      (([(5 : ℚ), 7].length = 0 ∧ average [(5 : ℚ), 7] = .error Err.undefined) ∨
      (∃ x, [(5 : ℚ), 7] = [x] ∧ size_minus_two [(5 : ℚ), 7].length = 2 ^ 64 - 1 ∧
        average [(5 : ℚ), 7] = .ok (some ((x - (x + x)) / ((2 ^ 64 - 1 : Nat) : ℚ)))) ∨
      ([(5 : ℚ), 7].length = 2 ∧ size_minus_two [(5 : ℚ), 7].length = 0 ∧
        average [(5 : ℚ), 7] = .ok none)) :=
  ⟨by decide, average_of_small_record [5, 7] (by decide)⟩

/-- Counterexample to C6 as stated: for the trial count 1, on the record
`[5]`, the code does compute the denominator, and it is `2^64 - 1`, neither
zero nor negative; the average is the finite quotient `-5 / (2^64 - 1)`. -/
theorem denominator_of_one_sample_positive :
    size_minus_two [(5 : ℚ)].length = 18446744073709551615 ∧
      ¬ ((size_minus_two [(5 : ℚ)].length : Int) ≤ 0) ∧
      average [5] = .ok (some (-5 / 18446744073709551615)) := by
  have hpow : (2 : Nat) ^ 64 = 18446744073709551616 := by norm_num
  have h1 : size_minus_two 1 = 18446744073709551615 := by rw [size_minus_two, hpow]
  refine ⟨h1, ?_, ?_⟩
  · rw [List.length_singleton, h1]; norm_num
  · simp only [average, max_element, min_element, List.foldl_nil, accumulate, List.foldl_cons,
      List.length_singleton, h1]
    norm_num

/-- Claim C1: on a record of `n ≥ 3` samples (`n` a `size_t` value) with
greatest sample `mx` and least sample `mn`, the aggregator returns exactly
`(sum - mx - mn) / (n - 2)`; on `[10, 20, 30, 1000]` it returns `25`. -/
theorem average_eq_trimmed_mean (records : List ℚ) (mx mn : ℚ)
    (h3 : 3 ≤ records.length) (hsize : records.length < 2 ^ 64)
    (hmx : mx ∈ records ∧ ∀ x ∈ records, x ≤ mx)
    (hmn : mn ∈ records ∧ ∀ x ∈ records, mn ≤ x) :
    average records = .ok (some ((records.sum - mx - mn) / ((records.length : ℚ) - 2))) ∧
      average [10, 20, 30, 1000] = .ok (some 25) := by
  refine ⟨average_of_extremes records mx mn h3 hsize hmx hmn, ?_⟩
  have h := average_of_extremes [10, 20, 30, 1000] 1000 10 (by simp) (by norm_num [List.length])
    (by norm_num) (by norm_num)
  rw [h]
  norm_num

/-- Witness of C1 at the samples `[10, 20, 30, 1000]`. -/
theorem average_eq_trimmed_mean_witness :
    (3 ≤ [(10 : ℚ), 20, 30, 1000].length ∧ [(10 : ℚ), 20, 30, 1000].length < 2 ^ 64) ∧
      average [10, 20, 30, 1000]
        = .ok (some (([(10 : ℚ), 20, 30, 1000].sum - 1000 - 10) / (4 - 2))) := by
  refine ⟨⟨by simp, by norm_num [List.length]⟩, ?_⟩
  have h := (average_eq_trimmed_mean [10, 20, 30, 1000] 1000 10 (by simp)
    (by norm_num [List.length]) (by norm_num) (by norm_num)).1
  rw [h]
  norm_num

/-- Claim C8: on every record of `n ≥ 3` samples, ties for the maximum or the
minimum included, the aggregator's sum-based result equals the arithmetic mean
of the record after one occurrence of the maximum value and one occurrence of
the minimum value are removed. -/
theorem average_refines_spec_trimmed_mean (records : List ℚ)
    (h3 : 3 ≤ records.length) (hsize : records.length < 2 ^ 64) :
    ∃ q, spec_trimmed_mean records = some q ∧ average records = .ok (some q) := by
  have hne : records ≠ [] := by
    intro h; rw [h] at h3; simp at h3
  obtain ⟨hi, e1, m1, b1⟩ := maximum_value_spec records hne
  obtain ⟨lo, e2, m2, b2⟩ := minimum_value_spec records hne
  have hlo : lo ∈ records.erase hi :=
    least_mem_erase_greatest records hi lo (by omega) ⟨m1, b1⟩ ⟨m2, b2⟩
  have hlen1 : (records.erase hi).length = records.length - 1 := List.length_erase_of_mem m1
  have hlen2 : ((records.erase hi).erase lo).length = records.length - 2 := by
    rw [List.length_erase_of_mem hlo, hlen1]; omega
  have hsum1 : hi + (records.erase hi).sum = records.sum := List.sum_erase m1
  have hsum2 : lo + ((records.erase hi).erase lo).sum = (records.erase hi).sum :=
    List.sum_erase hlo
  have hcast : ((records.length - 2 : Nat) : ℚ) = (records.length : ℚ) - 2 := by
    rw [Nat.cast_sub (by omega)]; norm_num
  refine ⟨arithmetic_mean ((records.erase hi).erase lo), ?_, ?_⟩
  · unfold spec_trimmed_mean
    rw [e1, e2]
  · rw [average_of_extremes records hi lo h3 hsize ⟨m1, b1⟩ ⟨m2, b2⟩]
    unfold arithmetic_mean
    rw [hlen2, hcast]
    have : ((records.erase hi).erase lo).sum = records.sum - hi - lo := by linarith
    rw [this]

/-- Witness of C8 at a record whose samples are all equal. -/
theorem average_refines_spec_trimmed_mean_witness :
    (3 ≤ [(5 : ℚ), 5, 5].length ∧ [(5 : ℚ), 5, 5].length < 2 ^ 64) ∧
      ∃ q, spec_trimmed_mean [5, 5, 5] = some q ∧ average [5, 5, 5] = .ok (some q) :=
  ⟨⟨by simp, by norm_num [List.length]⟩,
    average_refines_spec_trimmed_mean [5, 5, 5] (by simp) (by norm_num [List.length])⟩

/-! ## Lemmas on `replacePlaceholder` -/

theorem find_of_first_occurrence (frm post : Str) (pre : Str)
    (hfirst : ∀ i, i < pre.length → ¬ frm <+: (pre ++ (frm ++ post)).drop i) :
    find (pre ++ (frm ++ post)) frm = some pre.length := by
  induction pre with
  | nil =>
    unfold find
    have : frm.isPrefixOf ([] ++ (frm ++ post)) = true := by
      rw [List.isPrefixOf_iff_prefix]; exact List.prefix_append _ _
    rw [if_pos this]; rfl
  | cons c pre ih =>
    have h0 : ¬ frm <+: (c :: pre ++ (frm ++ post)) := by
      have := hfirst 0 (by simp)
      simpa using this
    have hrest : ∀ i, i < pre.length → ¬ frm <+: (pre ++ (frm ++ post)).drop i := by
      intro i hi
      have := hfirst (i + 1) (by simpa using hi)
      simpa using this
    have hfalse : ¬ (frm.isPrefixOf (c :: pre ++ (frm ++ post)) = true) := by
      rw [List.isPrefixOf_iff_prefix]; exact h0
    rw [find.eq_def, if_neg hfalse]
    show Option.map (· + 1) (find (pre ++ (frm ++ post)) frm) = _
    rw [ih hrest]
    rfl

theorem find_of_absent (str frm : Str) (habsent : ¬ frm <:+: str) : find str frm = none := by
  induction str with
  | nil =>
    have hfalse : ¬ (frm.isPrefixOf ([] : Str) = true) := by
      rw [List.isPrefixOf_iff_prefix]
      exact fun h => habsent h.isInfix
    unfold find
    rw [if_neg hfalse]
  | cons c rest ih =>
    have hfalse : ¬ (frm.isPrefixOf (c :: rest) = true) := by
      rw [List.isPrefixOf_iff_prefix]
      exact fun h => habsent h.isInfix
    have hrest : ¬ frm <:+: rest := fun h => habsent (h.trans (List.suffix_cons c rest).isInfix)
    rw [find.eq_def, if_neg hfalse]
    show Option.map (· + 1) (find rest frm) = _
    rw [ih hrest]
    rfl

theorem replacePlaceholder_of_first_occurrence (pre frm post to_ : Str)
    (hfirst : ∀ i, i < pre.length → ¬ frm <+: (pre ++ frm).drop i) :
    replacePlaceholder (pre ++ frm ++ post) frm to_ = pre ++ to_ ++ post := by
  have hfirst' : ∀ i, i < pre.length → ¬ frm <+: (pre ++ (frm ++ post)).drop i := by
    intro i hi h
    apply hfirst i hi
    have hdrop : (pre ++ (frm ++ post)).drop i = (pre ++ frm).drop i ++ post := by
      rw [← List.append_assoc, List.drop_append_of_le_length (by simp; omega)]
    rw [hdrop] at h
    exact List.prefix_of_prefix_length_le h (List.prefix_append _ _) (by simp; omega)
  unfold replacePlaceholder
  rw [List.append_assoc, find_of_first_occurrence frm post pre hfirst']
  simp [replace]

theorem replacePlaceholder_of_absent (str frm to_ : Str) (habsent : ¬ frm <:+: str) :
    replacePlaceholder str frm to_ = str := by
  unfold replacePlaceholder
  rw [find_of_absent str frm habsent]

/-- Claim C2: `replacePlaceholder(str, from, to)` replaces only the leftmost
occurrence of `from`: when `str = pre ++ from ++ post` and `from` does not
occur in `pre ++ from` at a position before `pre.length`, the result is
`pre ++ to ++ post` (so `post`, with any later occurrence, is kept as it is);
when `from` does not occur in `str` the result is `str`; and
`replacePlaceholder("a?b?c", "?", "X") = "aXb?c"`. -/
theorem replacePlaceholder_replaces_first_only (str frm to_ : Str) :
    (∀ pre post : Str, str = pre ++ frm ++ post →
        (∀ i, i < pre.length → ¬ frm <+: (pre ++ frm).drop i) →
        replacePlaceholder str frm to_ = pre ++ to_ ++ post) ∧
      (¬ frm <:+: str → replacePlaceholder str frm to_ = str) ∧
      replacePlaceholder "a?b?c".toList "?".toList "X".toList = "aXb?c".toList := by
  refine ⟨?_, replacePlaceholder_of_absent str frm to_, by decide⟩
  intro pre post hstr hfirst
  rw [hstr]
  exact replacePlaceholder_of_first_occurrence pre frm post to_ hfirst

/-- Witness of C2: a template with two occurrences of the token, and a
template without the token. -/
theorem replacePlaceholder_replaces_first_only_witness :
    replacePlaceholder "q?;?".toList "?".toList "12".toList = "q12;?".toList ∧
      replacePlaceholder "abc".toList "?".toList "12".toList = "abc".toList :=
  ⟨(replacePlaceholder_replaces_first_only "q?;?".toList "?".toList "12".toList).1
      "q".toList ";?".toList (by decide) (by decide),
    (replacePlaceholder_replaces_first_only "abc".toList "?".toList "12".toList).2.1
      (by decide)⟩

/-! ## Lemmas on the runs -/

theorem read_file_ok (env : Env) (path : Str) (w : World) (h : env.file path ≠ none) :
    read_file env path w
      = .ok (contents env path, { w with opened := w.opened ++ [path] }) := by
  unfold read_file contents
  cases hf : env.file path with
  | none => exact absurd hf h
  | some c => rfl

theorem load_script_ok (env : Env) (path : Str) (w : World) (h : env.file path ≠ none) :
    load_script env path w
      = .ok { w with opened := w.opened ++ [path], queries := w.queries ++ [contents env path] } := by
  unfold load_script
  rw [read_file_ok env path w h]
  rfl

theorem read_predicates_ok (env : Env) (path : Str) (w : World) (h : env.file path ≠ none) :
    read_predicates env path w
      = .ok (getline_loop (contents env path) [], { w with opened := w.opened ++ [path] }) := by
  unfold read_predicates contents
  cases hf : env.file path with
  | none => exact absurd hf h
  | some c => rfl

theorem trial_loop_spec (env : Env) (sql : Str) (count : Nat) (records : List ℚ) (w : World) :
    (trial_loop env sql count records w).1.length = records.length + count ∧
      (trial_loop env sql count records w).2
        = { w with queries := w.queries ++ List.replicate count sql } := by
  induction count generalizing records w with
  | zero => simp [trial_loop]
  | succ n ih =>
    rw [trial_loop]
    obtain ⟨h1, h2⟩ := ih (records ++ [env.duration (Query w sql).queries]) (Query w sql)
    refine ⟨?_, ?_⟩
    · rw [h1]; simp; omega
    · rw [h2]; simp [Query, List.replicate_succ]

theorem trials_ok (env : Env) (sql : Str) (times : Int) (w : World) (h : 0 ≤ times) :
    ∃ records, records.length = times.toNat ∧
      trials env sql times w
        = .ok (records, { w with queries := w.queries ++ List.replicate times.toNat sql }) := by
  obtain ⟨h1, h2⟩ := trial_loop_spec env sql times.toNat [] w
  refine ⟨(trial_loop env sql times.toNat [] w).1, by simpa using h1, ?_⟩
  unfold trials
  rw [if_neg (by omega), ← h2]

theorem average_ok (records : List ℚ) (hne : records ≠ []) :
    ∃ a, average records = .ok a := by
  obtain ⟨mx, e1, -, -⟩ := max_element_spec records hne
  obtain ⟨mn, e2, -, -⟩ := min_element_spec records hne
  unfold average
  rw [e1, e2]
  dsimp only
  split
  · exact ⟨_, rfl⟩
  · exact ⟨_, rfl⟩

/-- One `getline` call reads a line up to its newline. -/
theorem getline_loop_line (line rest acc : Str) (h : '\n' ∉ line) :
    getline_loop (line ++ '\n' :: rest) acc = (acc ++ line) :: getline_loop rest [] := by
  induction line generalizing acc with
  | nil => simp [getline_loop]
  | cons c cs ih =>
    have hc : c ≠ '\n' := fun e => h (by rw [e]; exact List.mem_cons_self _ _)
    have hcs : '\n' ∉ cs := fun e => h (List.mem_cons_of_mem _ e)
    rw [List.cons_append, getline_loop, if_neg hc, ih _ hcs]
    simp

/-- On a text file of newline-terminated lines the loop of `read_predicates`
returns the lines, in order. -/
theorem getline_loop_lines (lines : List Str) (h : ∀ l ∈ lines, '\n' ∉ l) :
    getline_loop (lines.map (fun l => l ++ ['\n'])).flatten [] = lines := by
  induction lines with
  | nil => simp [getline_loop]
  | cons l ls ih =>
    rw [List.map_cons, List.flatten_cons, List.append_assoc, List.singleton_append,
      getline_loop_line l _ [] (h l (List.mem_cons_self _ _)),
      ih (fun x hx => h x (List.mem_cons_of_mem _ hx))]
    simp

theorem row_chain_eq (env : Env) (config : Config) (predicate : Str) (a : Option ℚ) (out : Str) :
    out ++ config.workload ++ ",".toList ++ config.model ++ ",".toList ++ config.model_type
      ++ ",".toList ++ predicate ++ ",".toList ++ config.scale ++ ",".toList ++ config.thread
      ++ ",".toList ++ int_text config.optimization_level ++ ",".toList ++ env.double_text a
      ++ "\n".toList = out ++ report_row env config predicate a := by
  simp [report_row, List.intercalate, List.intersperse]

/-- The effect of one iteration of the loop of `run_retree`. -/
theorem run_retree_body_ok (env : Env) (config : Config) (sql_path predicate : Str) (w : World)
    (hq : env.file (sql_path ++ "query.sql".toList) ≠ none) (ht : 1 ≤ config.times) :
    ∃ records a, records.length = config.times.toNat ∧ average records = .ok a ∧
      run_retree_body env config sql_path predicate w
        = .ok { opened := w.opened ++ [sql_path ++ "query.sql".toList]
                queries := w.queries ++ List.replicate config.times.toNat
                  (replacePlaceholder (replacePlaceholder
                    (contents env (sql_path ++ "query.sql".toList)) "?".toList config.model)
                    "?".toList predicate)
                outputfile_path := w.outputfile_path
                outputfile := w.outputfile ++ report_row env config predicate a
                cout := w.cout ++ report_row env config predicate a } := by
  obtain ⟨records, hlen, htr⟩ := trials_ok env
    (replacePlaceholder (replacePlaceholder
      (contents env (sql_path ++ "query.sql".toList)) "?".toList config.model)
      "?".toList predicate) config.times
    { w with opened := w.opened ++ [sql_path ++ "query.sql".toList] } (by omega)
  have hne : records ≠ [] := by
    intro h; rw [h] at hlen; simp at hlen; omega
  obtain ⟨a, ha⟩ := average_ok records hne
  refine ⟨records, a, hlen, ha, ?_⟩
  unfold run_retree_body
  rw [read_file_ok env _ w hq]
  simp only [bind, Except.bind, htr, ha, pure, Except.pure, row_chain_eq]

/-- The effect of one iteration of the loop of `run_smart`. -/
theorem run_smart_body_ok (env : Env) (config : Config) (sql_path predicate : Str) (w : World)
    (hq : env.file (sql_path ++ "query_".toList ++ predicate ++ ".sql".toList) ≠ none)
    (ht : 1 ≤ config.times) :
    ∃ records a, records.length = config.times.toNat ∧ average records = .ok a ∧
      run_smart_body env config sql_path predicate w
        = .ok { opened := w.opened ++ [sql_path ++ "query_".toList ++ predicate ++ ".sql".toList]
                queries := w.queries ++ List.replicate config.times.toNat
                  (replacePlaceholder
                    (contents env (sql_path ++ "query_".toList ++ predicate ++ ".sql".toList))
                    "?".toList config.model)
                outputfile_path := w.outputfile_path
                outputfile := w.outputfile ++ report_row env config predicate a
                cout := w.cout ++ report_row env config predicate a } := by
  obtain ⟨records, hlen, htr⟩ := trials_ok env
    (replacePlaceholder
      (contents env (sql_path ++ "query_".toList ++ predicate ++ ".sql".toList))
      "?".toList config.model) config.times
    { w with opened := w.opened ++ [sql_path ++ "query_".toList ++ predicate ++ ".sql".toList] }
    (by omega)
  have hne : records ≠ [] := by
    intro h; rw [h] at hlen; simp at hlen; omega
  obtain ⟨a, ha⟩ := average_ok records hne
  refine ⟨records, a, hlen, ha, ?_⟩
  unfold run_smart_body
  rw [read_file_ok env _ w hq]
  simp only [bind, Except.bind, htr, ha, pure, Except.pure, row_chain_eq]

/-- The effect of the one iteration of the loop of `debug`. -/
theorem debug_body_ok (env : Env) (config : Config) (sql_path predicate : Str) (w : World)
    (hq : env.file (sql_path ++ "query.sql".toList) ≠ none) :
    debug_body env config sql_path predicate w
      = .ok { opened := w.opened ++ [sql_path ++ "query.sql".toList]
              queries := w.queries ++ [replacePlaceholder (replacePlaceholder
                  (contents env (sql_path ++ "query.sql".toList)) "?".toList config.model)
                  "?".toList predicate]
              outputfile_path := w.outputfile_path
              outputfile := w.outputfile
                ++ env.result (w.queries ++ [replacePlaceholder (replacePlaceholder
                  (contents env (sql_path ++ "query.sql".toList)) "?".toList config.model)
                  "?".toList predicate]) ++ "\n".toList
                ++ report_row env config predicate
                  (some (env.duration (w.queries ++ [replacePlaceholder (replacePlaceholder
                  (contents env (sql_path ++ "query.sql".toList)) "?".toList config.model)
                  "?".toList predicate])))
              cout := w.cout ++ report_row env config predicate
                  (some (env.duration (w.queries ++ [replacePlaceholder (replacePlaceholder
                  (contents env (sql_path ++ "query.sql".toList)) "?".toList config.model)
                  "?".toList predicate]))) } := by
  unfold debug_body
  rw [read_file_ok env _ w hq]
  simp only [bind, Except.bind, pure, Except.pure, Query, row_chain_eq]

/-- A loop whose every iteration appends to the four logs appends the
concatenation of what the iterations append, one row per predicate in order. -/
theorem for_each_spec (env : Env) (config : Config) (body : Str → World → Except Err World)
    (op qs : Str → List Str) (P : Option ℚ → Prop) (predicates : List Str)
    (hbody : ∀ p, p ∈ predicates → ∀ w, ∃ a, P a ∧ body p w
      = .ok { opened := w.opened ++ op p
              queries := w.queries ++ qs p
              outputfile_path := w.outputfile_path
              outputfile := w.outputfile ++ report_row env config p a
              cout := w.cout ++ report_row env config p a }) (w : World) :
    ∃ latencies : List (Option ℚ), latencies.length = predicates.length ∧
      (∀ a ∈ latencies, P a) ∧
      for_each body predicates w
        = .ok { opened := w.opened ++ (predicates.map op).flatten
                queries := w.queries ++ (predicates.map qs).flatten
                outputfile_path := w.outputfile_path
                outputfile := w.outputfile
                  ++ (List.zipWith (report_row env config) predicates latencies).flatten
                cout := w.cout
                  ++ (List.zipWith (report_row env config) predicates latencies).flatten } := by
  induction predicates generalizing w with
  | nil => exact ⟨[], rfl, by simp, by simp [for_each]⟩
  | cons p rest ih =>
    obtain ⟨a, hPa, hb⟩ := hbody p (List.mem_cons_self _ _) w
    obtain ⟨lats, hlen, hP, hrest⟩ := ih (fun q hq => hbody q (List.mem_cons_of_mem _ hq))
      { opened := w.opened ++ op p
        queries := w.queries ++ qs p
        outputfile_path := w.outputfile_path
        outputfile := w.outputfile ++ report_row env config p a
        cout := w.cout ++ report_row env config p a }
    refine ⟨a :: lats, by simp [hlen], ?_, ?_⟩
    · intro b hb'
      rcases List.mem_cons.mp hb' with h | h
      · rw [h]; exact hPa
      · exact hP b h
    · simp only [for_each, bind, Except.bind, hb, hrest]
      simp [List.append_assoc]

theorem samples_succ (env : Env) (history : List Str) (sql : Str) (count : Nat) :
    samples env history sql (count + 1)
      = env.duration (history ++ [sql]) :: samples env (history ++ [sql]) sql count := by
  simp [samples, List.range_succ_eq_map, List.replicate_succ, Function.comp_def]

theorem samples_length (env : Env) (history : List Str) (sql : Str) (count : Nat) :
    (samples env history sql count).length = count := by
  simp [samples]

/-- The record a timed loop builds is the record of the samples measured
around its successive issues of the query. -/
theorem trial_loop_records (env : Env) (sql : Str) (count : Nat) (records : List ℚ)
    (w : World) :
    (trial_loop env sql count records w).1 = records ++ samples env w.queries sql count := by
  induction count generalizing records w with
  | zero => simp [trial_loop, samples]
  | succ n ih =>
    rw [trial_loop, ih, samples_succ]
    simp [Query]

theorem trials_records (env : Env) (sql : Str) (times : Int) (w : World) (h : 0 ≤ times) :
    trials env sql times w
      = .ok (samples env w.queries sql times.toNat,
          { w with queries := w.queries ++ List.replicate times.toNat sql }) := by
  have h1 := trial_loop_records env sql times.toNat [] w
  have h2 := (trial_loop_spec env sql times.toNat [] w).2
  unfold trials
  rw [if_neg (by omega)]
  congr 1
  exact Prod.ext (by simpa using h1) h2

theorem average_samples (env : Env) (history : List Str) (sql : Str) (times : Int)
    (ht : 1 ≤ times) :
    average (samples env history sql times.toNat)
      = .ok (latency_of (samples env history sql times.toNat)) := by
  have hne : samples env history sql times.toNat ≠ [] := by
    intro h
    have := samples_length env history sql times.toNat
    rw [h] at this; simp at this; omega
  obtain ⟨a, ha⟩ := average_ok _ hne
  rw [latency_of, ha]

/-- The effect of one iteration of the loop of `run_retree`, with the record
it aggregates. -/
theorem run_retree_body_records (env : Env) (config : Config) (predicate : Str) (w : World)
    (hq : env.file (sql_path_of config ++ "query.sql".toList) ≠ none) (ht : 1 ≤ config.times) :
    run_retree_body env config (sql_path_of config) predicate w
      = .ok { opened := w.opened ++ [sql_path_of config ++ "query.sql".toList]
              queries := w.queries
                ++ List.replicate config.times.toNat (query_of env config predicate)
              outputfile_path := w.outputfile_path
              outputfile := w.outputfile ++ report_row env config predicate (latency_of
                (samples env w.queries (query_of env config predicate) config.times.toNat))
              cout := w.cout ++ report_row env config predicate (latency_of
                (samples env w.queries (query_of env config predicate)
                  config.times.toNat)) } := by
  have htr := trials_records env (query_of env config predicate) config.times
    { w with opened := w.opened ++ [sql_path_of config ++ "query.sql".toList] } (by omega)
  have ha := average_samples env w.queries (query_of env config predicate) config.times ht
  unfold run_retree_body
  rw [read_file_ok env _ w hq]
  unfold query_of at htr ha ⊢
  simp only [bind, Except.bind, htr, ha, pure, Except.pure, row_chain_eq]

/-- The effect of one iteration of the loop of `run_smart`, with the record
it aggregates. -/
theorem run_smart_body_records (env : Env) (config : Config) (predicate : Str) (w : World)
    (hq : env.file (sql_path_of config ++ "query_".toList ++ predicate ++ ".sql".toList)
      ≠ none) (ht : 1 ≤ config.times) :
    run_smart_body env config (sql_path_of config) predicate w
      = .ok { opened := w.opened
                ++ [sql_path_of config ++ "query_".toList ++ predicate ++ ".sql".toList]
              queries := w.queries
                ++ List.replicate config.times.toNat (smart_query_of env config predicate)
              outputfile_path := w.outputfile_path
              outputfile := w.outputfile ++ report_row env config predicate (latency_of
                (samples env w.queries (smart_query_of env config predicate)
                  config.times.toNat))
              cout := w.cout ++ report_row env config predicate (latency_of
                (samples env w.queries (smart_query_of env config predicate)
                  config.times.toNat)) } := by
  have htr := trials_records env (smart_query_of env config predicate) config.times
    { w with opened := w.opened
        ++ [sql_path_of config ++ "query_".toList ++ predicate ++ ".sql".toList] } (by omega)
  have ha := average_samples env w.queries (smart_query_of env config predicate)
    config.times ht
  unfold run_smart_body
  rw [read_file_ok env _ w hq]
  unfold smart_query_of at htr ha ⊢
  simp only [bind, Except.bind, htr, ha, pure, Except.pure, row_chain_eq]

/-- A loop whose iteration for a predicate prints a latency that depends on
the statements issued so far prints the latencies of `loop_latencies`. -/
theorem for_each_records (env : Env) (config : Config)
    (body : Str → World → Except Err World) (op qs : Str → List Str)
    (lat : Str → List Str → Option ℚ) (predicates : List Str)
    (hbody : ∀ p, p ∈ predicates → ∀ w, body p w
      = .ok { opened := w.opened ++ op p
              queries := w.queries ++ qs p
              outputfile_path := w.outputfile_path
              outputfile := w.outputfile ++ report_row env config p (lat p w.queries)
              cout := w.cout ++ report_row env config p (lat p w.queries) }) (w : World) :
    for_each body predicates w
      = .ok { opened := w.opened ++ (predicates.map op).flatten
              queries := w.queries ++ (predicates.map qs).flatten
              outputfile_path := w.outputfile_path
              outputfile := w.outputfile ++ (List.zipWith (report_row env config) predicates
                (loop_latencies lat qs predicates w.queries)).flatten
              cout := w.cout ++ (List.zipWith (report_row env config) predicates
                (loop_latencies lat qs predicates w.queries)).flatten } := by
  induction predicates generalizing w with
  | nil => simp [for_each, loop_latencies]
  | cons p rest ih =>
    have hb := hbody p (List.mem_cons_self _ _) w
    have hrest := ih (fun q hq => hbody q (List.mem_cons_of_mem _ hq))
      { opened := w.opened ++ op p
        queries := w.queries ++ qs p
        outputfile_path := w.outputfile_path
        outputfile := w.outputfile ++ report_row env config p (lat p w.queries)
        cout := w.cout ++ report_row env config p (lat p w.queries) }
    simp only [for_each, bind, Except.bind, hb, hrest, loop_latencies]
    simp [List.append_assoc]

theorem loop_latencies_eq_trial_records (env : Env) (count : Nat) (sql : Str → Str)
    (predicates : List Str) (history : List Str) :
    loop_latencies (fun p h => latency_of (samples env h (sql p) count))
        (fun p => List.replicate count (sql p)) predicates history
      = (trial_records env count (predicates.map sql) history).map latency_of := by
  induction predicates generalizing history with
  | nil => rfl
  | cons p rest ih => simp [loop_latencies, trial_records, ih]

theorem trial_records_length (env : Env) (count : Nat) (sqls : List Str) (history : List Str) :
    (trial_records env count sqls history).length = sqls.length := by
  induction sqls generalizing history with
  | nil => rfl
  | cons sql rest ih => simp [trial_records, ih]

theorem trial_records_mem_length (env : Env) (count : Nat) (sqls : List Str)
    (history : List Str) (r : List ℚ) (hr : r ∈ trial_records env count sqls history) :
    r.length = count := by
  induction sqls generalizing history with
  | nil => simp [trial_records] at hr
  | cons sql rest ih =>
    rcases List.mem_cons.mp hr with h | h
    · rw [h]; exact samples_length _ _ _ _
    · exact ih _ h

/-- The whole effect of `run_retree` when every file can be read. -/
theorem run_retree_spec (env : Env) (config : Config) (w : World)
    (hfiles : ∀ path, env.file path ≠ none) (ht : 1 ≤ config.times) :
    ∃ latencies : List (Option ℚ), latencies.length = (predicates_of env config).length ∧
      (∀ a ∈ latencies, ∃ records : List ℚ,
        records.length = config.times.toNat ∧ average records = .ok a) ∧
      run_retree env config w
        = .ok { opened := w.opened ++ [LOAD_PATH ++ "load_inference_function.sql".toList]
                  ++ retree_rules config.optimization_level
                  ++ [sql_path_of config ++ "predicates.txt".toList,
                      sql_path_of config ++ "load_data.sql".toList]
                  ++ ((predicates_of env config).map
                      (fun _ => [sql_path_of config ++ "query.sql".toList])).flatten
                queries := w.queries ++ preamble env
                  ++ (retree_rules config.optimization_level).map (contents env)
                  ++ data_and_threads env config
                  ++ ((predicates_of env config).map (fun p =>
                      List.replicate config.times.toNat (query_of env config p))).flatten
                outputfile_path := sql_path_of config ++ "output.csv".toList
                outputfile := w.outputfile ++ (List.zipWith (report_row env config)
                  (predicates_of env config) latencies).flatten
                cout := w.cout ++ (List.zipWith (report_row env config)
                  (predicates_of env config) latencies).flatten } := by
  have hloop := for_each_spec env config (run_retree_body env config (sql_path_of config))
    (fun _ => [sql_path_of config ++ "query.sql".toList])
    (fun p => List.replicate config.times.toNat (query_of env config p))
    (fun a => ∃ records : List ℚ, records.length = config.times.toNat ∧ average records = .ok a)
    (predicates_of env config)
    (fun p _ w => by
      obtain ⟨records, a, h1, h2, h3⟩ :=
        run_retree_body_ok env config (sql_path_of config) p w (hfiles _) ht
      exact ⟨a, ⟨records, h1, h2⟩, h3⟩)
  by_cases h1 : config.optimization_level ≥ 1 <;> by_cases h2 : config.optimization_level = 2
  all_goals
    obtain ⟨lats, hlen, hP, hrun⟩ := hloop
      { opened := w.opened ++ [LOAD_PATH ++ "load_inference_function.sql".toList]
                  ++ retree_rules config.optimization_level
                  ++ [sql_path_of config ++ "predicates.txt".toList,
                      sql_path_of config ++ "load_data.sql".toList]
        queries := w.queries ++ preamble env
                  ++ (retree_rules config.optimization_level).map (contents env)
                  ++ data_and_threads env config
        outputfile_path := sql_path_of config ++ "output.csv".toList
        outputfile := w.outputfile
        cout := w.cout }
    refine ⟨lats, hlen, hP, ?_⟩
    rw [← hrun]
    simp [run_retree, retree_rules, h1, h2, bind, Except.bind, pure, Except.pure,
      load_script_ok env _ _ (hfiles _), read_predicates_ok env _ _ (hfiles _),
      read_file_ok env _ _ (hfiles _), Query, outputfile_open, preamble, data_and_threads,
      sql_path_of, predicates_of]

/-- The whole effect of `run_smart` when every file can be read. -/
theorem run_smart_spec (env : Env) (config : Config) (w : World)
    (hfiles : ∀ path, env.file path ≠ none) (ht : 1 ≤ config.times) :
    ∃ latencies : List (Option ℚ), latencies.length = (predicates_of env config).length ∧
      (∀ a ∈ latencies, ∃ records : List ℚ,
        records.length = config.times.toNat ∧ average records = .ok a) ∧
      run_smart env config w
        = .ok { opened := w.opened ++ [LOAD_PATH ++ "load_inference_function.sql".toList]
                  ++ [sql_path_of config ++ "predicates.txt".toList,
                      sql_path_of config ++ "load_data.sql".toList]
                  ++ ((predicates_of env config).map (fun p =>
                      [sql_path_of config ++ "query_".toList ++ p ++ ".sql".toList])).flatten
                queries := w.queries ++ preamble env ++ data_and_threads env config
                  ++ ((predicates_of env config).map (fun p =>
                      List.replicate config.times.toNat (smart_query_of env config p))).flatten
                outputfile_path := sql_path_of config ++ "output.csv".toList
                outputfile := w.outputfile ++ (List.zipWith (report_row env config)
                  (predicates_of env config) latencies).flatten
                cout := w.cout ++ (List.zipWith (report_row env config)
                  (predicates_of env config) latencies).flatten } := by
  have hloop := for_each_spec env config (run_smart_body env config (sql_path_of config))
    (fun p => [sql_path_of config ++ "query_".toList ++ p ++ ".sql".toList])
    (fun p => List.replicate config.times.toNat (smart_query_of env config p))
    (fun a => ∃ records : List ℚ, records.length = config.times.toNat ∧ average records = .ok a)
    (predicates_of env config)
    (fun p _ w => by
      obtain ⟨records, a, h1, h2, h3⟩ :=
        run_smart_body_ok env config (sql_path_of config) p w (hfiles _) ht
      exact ⟨a, ⟨records, h1, h2⟩, h3⟩)
  obtain ⟨lats, hlen, hP, hrun⟩ := hloop
    { opened := w.opened ++ [LOAD_PATH ++ "load_inference_function.sql".toList]
                ++ [sql_path_of config ++ "predicates.txt".toList,
                    sql_path_of config ++ "load_data.sql".toList]
      queries := w.queries ++ preamble env ++ data_and_threads env config
      outputfile_path := sql_path_of config ++ "output.csv".toList
      outputfile := w.outputfile
      cout := w.cout }
  refine ⟨lats, hlen, hP, ?_⟩
  rw [← hrun]
  simp [run_smart, bind, Except.bind,
    load_script_ok env _ _ (hfiles _), read_predicates_ok env _ _ (hfiles _),
    read_file_ok env _ _ (hfiles _), Query, outputfile_open, preamble, data_and_threads,
    sql_path_of, predicates_of]

/-- The whole effect of `run_retree` when every file can be read, with the
trial records its latencies are the averages of. -/
theorem run_retree_records (env : Env) (config : Config) (w : World)
    (hfiles : ∀ path, env.file path ≠ none) (ht : 1 ≤ config.times) :
    run_retree env config w
      = .ok { opened := w.opened ++ [LOAD_PATH ++ "load_inference_function.sql".toList]
                ++ retree_rules config.optimization_level
                ++ [sql_path_of config ++ "predicates.txt".toList,
                    sql_path_of config ++ "load_data.sql".toList]
                ++ ((predicates_of env config).map
                    (fun _ => [sql_path_of config ++ "query.sql".toList])).flatten
              queries := w.queries ++ preamble env
                ++ (retree_rules config.optimization_level).map (contents env)
                ++ data_and_threads env config
                ++ ((predicates_of env config).map (fun p =>
                    List.replicate config.times.toNat (query_of env config p))).flatten
              outputfile_path := sql_path_of config ++ "output.csv".toList
              outputfile := w.outputfile ++ (List.zipWith (report_row env config)
                (predicates_of env config)
                ((trial_records env config.times.toNat
                  ((predicates_of env config).map (query_of env config))
                  (w.queries ++ preamble env
                    ++ (retree_rules config.optimization_level).map (contents env)
                    ++ data_and_threads env config)).map latency_of)).flatten
              cout := w.cout ++ (List.zipWith (report_row env config)
                (predicates_of env config)
                ((trial_records env config.times.toNat
                  ((predicates_of env config).map (query_of env config))
                  (w.queries ++ preamble env
                    ++ (retree_rules config.optimization_level).map (contents env)
                    ++ data_and_threads env config)).map latency_of)).flatten } := by
  have hloop := for_each_records env config (run_retree_body env config (sql_path_of config))
    (fun _ => [sql_path_of config ++ "query.sql".toList])
    (fun p => List.replicate config.times.toNat (query_of env config p))
    (fun p h => latency_of (samples env h (query_of env config p) config.times.toNat))
    (predicates_of env config)
    (fun p _ w => run_retree_body_records env config p w (hfiles _) ht)
    { opened := w.opened ++ [LOAD_PATH ++ "load_inference_function.sql".toList]
                ++ retree_rules config.optimization_level
                ++ [sql_path_of config ++ "predicates.txt".toList,
                    sql_path_of config ++ "load_data.sql".toList]
      queries := w.queries ++ preamble env
                ++ (retree_rules config.optimization_level).map (contents env)
                ++ data_and_threads env config
      outputfile_path := sql_path_of config ++ "output.csv".toList
      outputfile := w.outputfile
      cout := w.cout }
  rw [loop_latencies_eq_trial_records env config.times.toNat (query_of env config)] at hloop
  rw [← hloop]
  by_cases h1 : config.optimization_level ≥ 1 <;> by_cases h2 : config.optimization_level = 2
  all_goals
    simp [run_retree, retree_rules, h1, h2, bind, Except.bind, pure, Except.pure,
      load_script_ok env _ _ (hfiles _), read_predicates_ok env _ _ (hfiles _),
      read_file_ok env _ _ (hfiles _), Query, outputfile_open, preamble, data_and_threads,
      sql_path_of, predicates_of]

/-- The whole effect of `run_smart` when every file can be read, with the
trial records its latencies are the averages of. -/
theorem run_smart_records (env : Env) (config : Config) (w : World)
    (hfiles : ∀ path, env.file path ≠ none) (ht : 1 ≤ config.times) :
    run_smart env config w
      = .ok { opened := w.opened ++ [LOAD_PATH ++ "load_inference_function.sql".toList]
                ++ [sql_path_of config ++ "predicates.txt".toList,
                    sql_path_of config ++ "load_data.sql".toList]
                ++ ((predicates_of env config).map (fun p =>
                    [sql_path_of config ++ "query_".toList ++ p ++ ".sql".toList])).flatten
              queries := w.queries ++ preamble env ++ data_and_threads env config
                ++ ((predicates_of env config).map (fun p =>
                    List.replicate config.times.toNat (smart_query_of env config p))).flatten
              outputfile_path := sql_path_of config ++ "output.csv".toList
              outputfile := w.outputfile ++ (List.zipWith (report_row env config)
                (predicates_of env config)
                ((trial_records env config.times.toNat
                  ((predicates_of env config).map (smart_query_of env config))
                  (w.queries ++ preamble env ++ data_and_threads env config)).map
                  latency_of)).flatten
              cout := w.cout ++ (List.zipWith (report_row env config)
                (predicates_of env config)
                ((trial_records env config.times.toNat
                  ((predicates_of env config).map (smart_query_of env config))
                  (w.queries ++ preamble env ++ data_and_threads env config)).map
                  latency_of)).flatten } := by
  have hloop := for_each_records env config (run_smart_body env config (sql_path_of config))
    (fun p => [sql_path_of config ++ "query_".toList ++ p ++ ".sql".toList])
    (fun p => List.replicate config.times.toNat (smart_query_of env config p))
    (fun p h => latency_of (samples env h (smart_query_of env config p) config.times.toNat))
    (predicates_of env config)
    (fun p _ w => run_smart_body_records env config p w (hfiles _) ht)
    { opened := w.opened ++ [LOAD_PATH ++ "load_inference_function.sql".toList]
                ++ [sql_path_of config ++ "predicates.txt".toList,
                    sql_path_of config ++ "load_data.sql".toList]
      queries := w.queries ++ preamble env ++ data_and_threads env config
      outputfile_path := sql_path_of config ++ "output.csv".toList
      outputfile := w.outputfile
      cout := w.cout }
  rw [loop_latencies_eq_trial_records env config.times.toNat (smart_query_of env config)]
    at hloop
  rw [← hloop]
  simp [run_smart, bind, Except.bind,
    load_script_ok env _ _ (hfiles _), read_predicates_ok env _ _ (hfiles _),
    read_file_ok env _ _ (hfiles _), Query, outputfile_open, preamble, data_and_threads,
    sql_path_of, predicates_of]

/-- The whole effect of `debug` when every file can be read. -/
theorem debug_spec (env : Env) (config : Config) (w : World)
    (hfiles : ∀ path, env.file path ≠ none) :
    debug env config w
      = .ok { opened := w.opened ++ [LOAD_PATH ++ "load_inference_function.sql".toList]
                ++ debug_rules config.optimization_level
                ++ [sql_path_of config ++ "predicates.txt".toList,
                    sql_path_of config ++ "load_data.sql".toList]
                ++ ((predicates_of env config).take 1).map
                    (fun _ => sql_path_of config ++ "query.sql".toList)
              queries := w.queries ++ preamble env
                ++ (debug_rules config.optimization_level).map (contents env)
                ++ (data_and_threads env config).reverse
                ++ ((predicates_of env config).take 1).map (query_of env config)
              outputfile_path := sql_path_of config ++ "output-debug.csv".toList
              outputfile := w.outputfile
                ++ env.result (w.queries ++ preamble env
                  ++ (debug_rules config.optimization_level).map (contents env)
                  ++ (data_and_threads env config).reverse) ++ "\n".toList
                ++ (((predicates_of env config).take 1).map (fun p =>
                  env.result (w.queries ++ preamble env
                    ++ (debug_rules config.optimization_level).map (contents env)
                    ++ (data_and_threads env config).reverse ++ [query_of env config p])
                  ++ "\n".toList
                  ++ report_row env config p (some (env.duration (w.queries ++ preamble env
                    ++ (debug_rules config.optimization_level).map (contents env)
                    ++ (data_and_threads env config).reverse ++ [query_of env config p]))))).flatten
              cout := w.cout
                ++ (((predicates_of env config).take 1).map (fun p =>
                  report_row env config p (some (env.duration (w.queries ++ preamble env
                    ++ (debug_rules config.optimization_level).map (contents env)
                    ++ (data_and_threads env config).reverse ++ [query_of env config p]))))).flatten } := by
  by_cases h1 : config.optimization_level > 1 <;> by_cases h3 : config.optimization_level = 3 <;>
    by_cases h4 : config.optimization_level = 4
  all_goals
    cases hp : predicates_of env config with
    | nil =>
      simp [predicates_of, sql_path_of] at hp
      simp [debug, debug_rules, h1, h3, h4, bind, Except.bind, pure, Except.pure,
        load_script_ok env _ _ (hfiles _), read_predicates_ok env _ _ (hfiles _),
        read_file_ok env _ _ (hfiles _), Query, outputfile_open, preamble, data_and_threads,
        sql_path_of, hp, for_each_break]
    | cons p rest =>
      simp [predicates_of, sql_path_of] at hp
      simp [debug, debug_rules, h1, h3, h4, bind, Except.bind, pure, Except.pure,
        load_script_ok env _ _ (hfiles _), read_predicates_ok env _ _ (hfiles _),
        read_file_ok env _ _ (hfiles _), Query, outputfile_open, preamble, data_and_threads,
        sql_path_of, hp, for_each_break, debug_body_ok env _ _ _ _ (hfiles _), query_of]

/-! ## Lemmas on the command line and on `main` -/

theorem parse_args_loop_times (events : List (Char × Str)) (config result : Config)
    (h : parse_args_loop events config = .ok result) : result.times = config.times := by
  induction events generalizing config with
  | nil =>
    simp only [parse_args_loop, Except.ok.injEq] at h
    rw [← h]
  | cons e rest ih =>
    obtain ⟨opt, optarg⟩ := e
    simp only [parse_args_loop] at h
    split_ifs at h
    all_goals first
      | exact ih _ h
      | (rw [ih _ h])

theorem parse_args_loop_usage (events : List (Char × Str)) (config : Config)
    (h : ∃ optarg, ('n', optarg) ∈ events) :
    parse_args_loop events config = .error Err.usage := by
  induction events generalizing config with
  | nil => simp at h
  | cons e rest ih =>
    obtain ⟨opt, optarg⟩ := e
    obtain ⟨a, ha⟩ := h
    simp only [parse_args_loop]
    rcases List.mem_cons.mp ha with hhead | htail
    · have hopt : opt = 'n' := by
        have := congrArg Prod.fst hhead
        exact this.symm
      subst hopt
      simp
    · split_ifs
      all_goals first
        | exact ih _ ⟨a, htail⟩
        | rfl

theorem main_dispatch (env : Env) (argv : List Str) (w : World) (config : Config)
    (hparse : parse_args argv = .ok config) :
    main env argv w =
      if config.optimization_level ≤ 2 then
        if config.debug = 0 then
          run_retree env { config with model_type := "dt".toList, thread := "1".toList } w
        else debug env { config with model_type := "dt".toList, thread := "1".toList } w
      else run_smart env { config with model_type := "dt".toList, thread := "1".toList } w := by
  simp only [main, hparse, bind, Except.bind]

theorem threads_statement (thread : Str) :
    replacePlaceholder "set threads = ?;".toList "?".toList thread
      = "set threads = ".toList ++ thread ++ ";".toList := by
  have h := replacePlaceholder_of_first_occurrence "set threads = ".toList "?".toList
    ";".toList thread (by decide)
  simpa using h

theorem empty_env_files : ∀ path, empty_env.file path ≠ none :=
  fun _ => Option.some_ne_none _

theorem one_predicate_env_files : ∀ path, one_predicate_env.file path ≠ none :=
  fun _ => Option.some_ne_none _

/-- Claim C3: when every file can be read and the trial count is at least 3,
`run_retree` and `run_smart` each write exactly one report row per line of
the predicate file, in the order of the file, and the predicate field of the
i-th row is the i-th line: the predicates are the lines of the file (for a
file of newline-terminated lines, those lines), and the text added to
`std::cout`, and to the output file, is the concatenation of the rows of the
predicates, one latency for each. -/
theorem runs_emit_one_row_per_predicate (env : Env) (config : Config) (w : World)
    (hfiles : ∀ path, env.file path ≠ none) (htimes : 3 ≤ config.times) :
    (∀ lines : List Str, (∀ l ∈ lines, '\n' ∉ l) →
        env.file (sql_path_of config ++ "predicates.txt".toList)
          = some (lines.map (fun l => l ++ ['\n'])).flatten →
        predicates_of env config = lines) ∧
      (∃ w' latencies, run_retree env config w = .ok w' ∧
        latencies.length = (predicates_of env config).length ∧
        (List.zipWith (report_row env config) (predicates_of env config) latencies).length
          = (predicates_of env config).length ∧
        w'.cout = w.cout ++
          (List.zipWith (report_row env config) (predicates_of env config) latencies).flatten ∧
        w'.outputfile = w.outputfile ++
          (List.zipWith (report_row env config) (predicates_of env config) latencies).flatten) ∧
      (∃ w' latencies, run_smart env config w = .ok w' ∧
        latencies.length = (predicates_of env config).length ∧
        (List.zipWith (report_row env config) (predicates_of env config) latencies).length
          = (predicates_of env config).length ∧
        w'.cout = w.cout ++
          (List.zipWith (report_row env config) (predicates_of env config) latencies).flatten ∧
        w'.outputfile = w.outputfile ++
          (List.zipWith (report_row env config) (predicates_of env config) latencies).flatten) := by
  obtain ⟨l1, hl1, -, h1⟩ := run_retree_spec env config w hfiles (by omega)
  obtain ⟨l2, hl2, -, h2⟩ := run_smart_spec env config w hfiles (by omega)
  refine ⟨?_, ⟨_, l1, h1, hl1, by simp [hl1], rfl, rfl⟩, ⟨_, l2, h2, hl2, by simp [hl2], rfl, rfl⟩⟩
  intro lines hlines hfile
  unfold predicates_of contents
  rw [hfile]
  exact getline_loop_lines lines hlines

/-- Witness of C3 on a predicate file of the one line `p`. -/
theorem runs_emit_one_row_per_predicate_witness :
    ((∀ path, one_predicate_env.file path ≠ none) ∧ (3 : Int) ≤ ({} : Config).times) ∧
      predicates_of one_predicate_env {} = ["p".toList] ∧
      ∃ w' latencies, run_retree one_predicate_env {} initial_world = .ok w' ∧
        latencies.length = (predicates_of one_predicate_env {}).length ∧
        (List.zipWith (report_row one_predicate_env {}) (predicates_of one_predicate_env {})
          latencies).length = (predicates_of one_predicate_env {}).length ∧
        w'.cout = initial_world.cout ++
          (List.zipWith (report_row one_predicate_env {}) (predicates_of one_predicate_env {})
            latencies).flatten ∧
        w'.outputfile = initial_world.outputfile ++
          (List.zipWith (report_row one_predicate_env {}) (predicates_of one_predicate_env {})
            latencies).flatten :=
  ⟨⟨one_predicate_env_files, by decide⟩,
    (runs_emit_one_row_per_predicate one_predicate_env {} initial_world
      one_predicate_env_files (by decide)).1 ["p".toList] (by decide) rfl,
    (runs_emit_one_row_per_predicate one_predicate_env {} initial_world
      one_predicate_env_files (by decide)).2.1⟩

/-- Claim C4, as the code behaves: when every file can be read, `debug` writes
one report row when the predicate file has at least one line and none when it
is empty: the rows are those of the first predicate only (`take 1`), the
query is issued once for that predicate after the setup statements, and the
latency of the row is the single sample measured around that query. -/
theorem debug_emits_row_of_first_predicate_only (env : Env) (config : Config) (w : World)
    (hfiles : ∀ path, env.file path ≠ none) :
    ∃ w', debug env config w = .ok w' ∧
      w'.queries = w.queries ++ preamble env
        ++ (debug_rules config.optimization_level).map (contents env)
        ++ (data_and_threads env config).reverse
        ++ ((predicates_of env config).take 1).map (query_of env config) ∧
      w'.cout = w.cout ++ (((predicates_of env config).take 1).map (fun p =>
        report_row env config p (some (env.duration w'.queries)))).flatten ∧
      (((predicates_of env config).take 1).map (fun p =>
        report_row env config p (some (env.duration w'.queries)))).length
        = min 1 (predicates_of env config).length := by
  refine ⟨_, debug_spec env config w hfiles, rfl, ?_, by simp⟩
  cases hp : predicates_of env config with
  | nil => simp
  | cons p rest => simp

/-- Witness of C4 on a predicate file of one line. -/
theorem debug_emits_row_of_first_predicate_only_witness :
    (∀ path, one_predicate_env.file path ≠ none) ∧
      ∃ w', debug one_predicate_env {} initial_world = .ok w' ∧
        w'.queries = initial_world.queries ++ preamble one_predicate_env
          ++ (debug_rules ({} : Config).optimization_level).map (contents one_predicate_env)
          ++ (data_and_threads one_predicate_env {}).reverse
          ++ ((predicates_of one_predicate_env {}).take 1).map (query_of one_predicate_env {}) ∧
        w'.cout = initial_world.cout ++ (((predicates_of one_predicate_env {}).take 1).map
          (fun p => report_row one_predicate_env {} p
            (some (one_predicate_env.duration w'.queries)))).flatten ∧
        (((predicates_of one_predicate_env {}).take 1).map (fun p =>
          report_row one_predicate_env {} p
            (some (one_predicate_env.duration w'.queries)))).length
          = min 1 (predicates_of one_predicate_env {}).length :=
  ⟨one_predicate_env_files,
    debug_emits_row_of_first_predicate_only one_predicate_env {} initial_world
      one_predicate_env_files⟩

/-- Counterexample to C4 as stated: on an empty predicate file (`k = 0`) `debug`
returns normally and has written no report row: nothing goes to `std::cout`
and the output file holds only the dump of the data loader's result. -/
theorem debug_empty_predicate_file_no_row :
    predicates_of empty_env {} = [] ∧
      ∃ w', debug empty_env {} initial_world = .ok w' ∧ w'.cout = [] ∧
        w'.outputfile = "\n".toList := by
  have hp : predicates_of empty_env {} = [] := by
    simp [predicates_of, contents, empty_env, getline_loop]
  refine ⟨hp, _, debug_spec empty_env {} initial_world empty_env_files, ?_, ?_⟩
  · simp only [hp, List.take_nil, List.map_nil, List.flatten_nil, List.append_nil]
    rfl
  · simp only [hp, List.take_nil, List.map_nil, List.flatten_nil, List.append_nil]
    rfl

/-- The thread statement is among the statements of every run and the rows
of every run are rows of its configuration. -/
theorem run_threads_and_rows (env : Env) (config : Config) (w : World)
    (run : Env → Config → World → Except Err World)
    (hrun : run = run_retree ∨ run = run_smart ∨ run = debug)
    (hfiles : ∀ path, env.file path ≠ none) (ht : 1 ≤ config.times) :
    ∃ w' predicates latencies, run env config w = .ok w' ∧
      "set threads = ".toList ++ config.thread ++ ";".toList ∈ w'.queries ∧
      latencies.length = predicates.length ∧
      w'.cout = w.cout ++ (List.zipWith (report_row env config) predicates latencies).flatten := by
  have hthr : "set threads = ".toList ++ config.thread ++ ";".toList
      ∈ data_and_threads env config := by
    rw [← threads_statement]; simp [data_and_threads]
  rcases hrun with h | h | h
  · subst h
    obtain ⟨lats, hlen, -, h⟩ := run_retree_spec env config w hfiles ht
    refine ⟨_, predicates_of env config, lats, h, ?_, hlen, rfl⟩
    simp only [List.mem_append]
    exact Or.inl (Or.inr hthr)
  · subst h
    obtain ⟨lats, hlen, -, h⟩ := run_smart_spec env config w hfiles ht
    refine ⟨_, predicates_of env config, lats, h, ?_, hlen, rfl⟩
    simp only [List.mem_append]
    exact Or.inl (Or.inr hthr)
  · subst h
    refine ⟨_, (predicates_of env config).take 1,
      ((predicates_of env config).take 1).map (fun p =>
        some (env.duration (w.queries ++ preamble env
          ++ (debug_rules config.optimization_level).map (contents env)
          ++ (data_and_threads env config).reverse ++ [query_of env config p]))),
      debug_spec env config w hfiles, ?_, by simp, ?_⟩
    · simp only [List.mem_append, List.mem_reverse]
      exact Or.inl (Or.inr hthr)
    · cases predicates_of env config with
      | nil => simp
      | cons p rest => simp

theorem parse_thread_flag_value (v : Str) :
    parse_args ["run_selectivity".toList, "-t".toList, v] = .ok { thread := v } := by
  simp [parse_args, getopt_events, getopt_lookup, parse_args_loop]

/-- Claim C5, as the code behaves: `parse_args` stores the value `v` of `-t v`
in the configuration, but in a run started from `main` on a command line
that parses, whatever value `-t` carries, when every file can be read the
thread statement issued to the database is `set threads = 1;` and the thread
field of every report row is `1`: `main` overwrites the parsed thread count
(and the model type) before it dispatches. -/
theorem main_pins_thread_to_one (env : Env) (argv : List Str) (w : World) (config : Config)
    (hparse : parse_args argv = .ok config) (hfiles : ∀ path, env.file path ≠ none) :
    (∀ v : Str, parse_args ["run_selectivity".toList, "-t".toList, v]
        = .ok { thread := v }) ∧
    ∃ w' predicates latencies, main env argv w = .ok w' ∧
      "set threads = 1;".toList ∈ w'.queries ∧
      latencies.length = predicates.length ∧
      w'.cout = w.cout ++ (List.zipWith (fun predicate latency =>
        ",".toList.intercalate [config.workload, config.model, "dt".toList, predicate,
          config.scale, "1".toList, int_text config.optimization_level,
          env.double_text latency] ++ "\n".toList) predicates latencies).flatten := by
  refine ⟨parse_thread_flag_value, ?_⟩
  have htimes : config.times = 10 := parse_args_loop_times _ _ _ hparse
  rw [main_dispatch env argv w config hparse]
  have key : ∀ run, (run = run_retree ∨ run = run_smart ∨ run = debug) →
      ∃ w' predicates latencies,
        run env { config with model_type := "dt".toList, thread := "1".toList } w = .ok w' ∧
        "set threads = 1;".toList ∈ w'.queries ∧
        latencies.length = predicates.length ∧
        w'.cout = w.cout ++ (List.zipWith (fun predicate latency =>
          ",".toList.intercalate [config.workload, config.model, "dt".toList, predicate,
            config.scale, "1".toList, int_text config.optimization_level,
            env.double_text latency] ++ "\n".toList) predicates latencies).flatten := by
    intro run hrun
    obtain ⟨w', ps, lats, h1, h2, h3, h4⟩ := run_threads_and_rows env
      { config with model_type := "dt".toList, thread := "1".toList } w run hrun hfiles
      (by show 1 ≤ config.times; omega)
    exact ⟨w', ps, lats, h1, h2, h3, h4⟩
  split_ifs
  · exact key _ (Or.inl rfl)
  · exact key _ (Or.inr (Or.inr rfl))
  · exact key _ (Or.inr (Or.inl rfl))

theorem parse_thread_flag :
    parse_args ["run_selectivity".toList, "-t".toList, "8".toList]
      = .ok { thread := "8".toList } := by
  simp [parse_args, getopt_events, getopt_lookup, parse_args_loop]

/-- Witness of C5 on the command line `run_selectivity -t 8`. -/
theorem main_pins_thread_to_one_witness :
    (parse_args ["run_selectivity".toList, "-t".toList, "8".toList]
        = .ok { thread := "8".toList } ∧ ∀ path, one_predicate_env.file path ≠ none) ∧
      ∃ w' predicates latencies,
        main one_predicate_env ["run_selectivity".toList, "-t".toList, "8".toList]
          initial_world = .ok w' ∧
        "set threads = 1;".toList ∈ w'.queries ∧
        latencies.length = predicates.length ∧
        w'.cout = initial_world.cout ++ (List.zipWith (fun predicate latency =>
          ",".toList.intercalate [({ thread := "8".toList } : Config).workload,
            ({ thread := "8".toList } : Config).model, "dt".toList, predicate,
            ({ thread := "8".toList } : Config).scale, "1".toList,
            int_text ({ thread := "8".toList } : Config).optimization_level,
            one_predicate_env.double_text latency] ++ "\n".toList) predicates latencies).flatten :=
  ⟨⟨parse_thread_flag, one_predicate_env_files⟩,
    (main_pins_thread_to_one one_predicate_env _ initial_world _ parse_thread_flag
      one_predicate_env_files).2⟩

theorem one_predicate_env_predicates (config : Config) :
    predicates_of one_predicate_env config = ["p".toList] := by
  simp [predicates_of, contents, one_predicate_env, getline_loop]

theorem int_text_three : int_text 3 = "3".toList := by decide

/-- Counterexample to C5 as stated: on the command line `run_selectivity -t 8`, whose
parsed configuration has thread count `8`, the run issues `set threads = 1;`
and not `set threads = 8;`, and the thread field of its report row is `1`. -/
theorem thread_flag_value_is_not_used :
    parse_args ["run_selectivity".toList, "-t".toList, "8".toList]
        = .ok { thread := "8".toList } ∧
      ∃ w', main one_predicate_env ["run_selectivity".toList, "-t".toList, "8".toList]
          initial_world = .ok w' ∧
        "set threads = 8;".toList ∉ w'.queries ∧
        "set threads = 1;".toList ∈ w'.queries ∧
        w'.cout = ("nyc-taxi-green-dec-2016,"
          ++ "nyc-taxi-green-dec-2016_d11_l1491_n2981_20250112085333,dt,p,1G,1,3,1\n").toList := by
  refine ⟨parse_thread_flag, ?_⟩
  rw [main_dispatch _ _ _ _ parse_thread_flag]
  obtain ⟨lats, hlen, -, h⟩ := run_smart_spec one_predicate_env
    { thread := "1".toList, model_type := "dt".toList } initial_world one_predicate_env_files
    (by decide)
  rw [one_predicate_env_predicates] at hlen h
  obtain ⟨a, rfl⟩ : ∃ a, lats = [a] := by
    match lats, hlen with
    | [a], _ => exact ⟨a, rfl⟩
  refine ⟨_, h, ?_, ?_, ?_⟩
  · simp [initial_world, preamble, data_and_threads, smart_query_of, contents,
      one_predicate_env, replacePlaceholder, find, replace]
  · simp [initial_world, preamble, data_and_threads, smart_query_of, contents,
      one_predicate_env, replacePlaceholder, find, replace]
  · simp [initial_world, report_row, List.intercalate, List.intersperse, one_predicate_env,
      int_text_three]

/-- Claim C7: when every file can be read (and, for the two timed runs, the
trial count is at least 1, without which they write no row), every report row
written by `run_retree`,
`run_smart` and `debug` is the comma-joined sequence of the eight fields
workload, model, model type, predicate, scale, thread, optimization level,
latency, ended by a newline, and the rows written to the output file are the
rows written to standard output (in `debug` each row follows the dump of its
query's result in the file). -/
theorem report_rows_are_eight_comma_joined_fields (env : Env) (config : Config) (w : World)
    (hfiles : ∀ path, env.file path ≠ none) :
    let row : Str → Option ℚ → Str := fun predicate latency =>
      ",".toList.intercalate [config.workload, config.model, config.model_type, predicate,
        config.scale, config.thread, int_text config.optimization_level,
        env.double_text latency] ++ "\n".toList
    (1 ≤ config.times → ∃ w' predicates latencies, run_retree env config w = .ok w' ∧
        latencies.length = predicates.length ∧
        w'.cout = w.cout ++ (List.zipWith row predicates latencies).flatten ∧
        w'.outputfile = w.outputfile ++ (List.zipWith row predicates latencies).flatten) ∧
      (1 ≤ config.times → ∃ w' predicates latencies, run_smart env config w = .ok w' ∧
        latencies.length = predicates.length ∧
        w'.cout = w.cout ++ (List.zipWith row predicates latencies).flatten ∧
        w'.outputfile = w.outputfile ++ (List.zipWith row predicates latencies).flatten) ∧
      (∃ w' predicates latencies dump dumps, debug env config w = .ok w' ∧
        latencies.length = predicates.length ∧ dumps.length = predicates.length ∧
        w'.cout = w.cout ++ (List.zipWith row predicates latencies).flatten ∧
        w'.outputfile = w.outputfile ++ dump
          ++ (List.zipWith (fun d line => d ++ line) dumps
              (List.zipWith row predicates latencies)).flatten) := by
  intro row
  have hrow : row = report_row env config := rfl
  clear_value row
  subst hrow
  refine ⟨?_, ?_, ?_⟩
  · intro htimes
    obtain ⟨l1, hl1, -, h1⟩ := run_retree_spec env config w hfiles htimes
    exact ⟨_, _, l1, h1, hl1, rfl, rfl⟩
  · intro htimes
    obtain ⟨l2, hl2, -, h2⟩ := run_smart_spec env config w hfiles htimes
    exact ⟨_, _, l2, h2, hl2, rfl, rfl⟩
  have h3 := debug_spec env config w hfiles
  cases hp : predicates_of env config with
  | nil =>
    rw [hp] at h3
    exact ⟨_, [], [],
      env.result (w.queries ++ preamble env
        ++ (debug_rules config.optimization_level).map (contents env)
        ++ (data_and_threads env config).reverse) ++ "\n".toList,
      [], h3, rfl, rfl, by simp, by simp⟩
  | cons p rest =>
    rw [hp] at h3
    exact ⟨_, [p],
      [some (env.duration (w.queries ++ preamble env
        ++ (debug_rules config.optimization_level).map (contents env)
        ++ (data_and_threads env config).reverse ++ [query_of env config p]))],
      env.result (w.queries ++ preamble env
        ++ (debug_rules config.optimization_level).map (contents env)
        ++ (data_and_threads env config).reverse) ++ "\n".toList,
      [env.result (w.queries ++ preamble env
        ++ (debug_rules config.optimization_level).map (contents env)
        ++ (data_and_threads env config).reverse ++ [query_of env config p]) ++ "\n".toList],
      h3, rfl, rfl, by simp, by simp⟩

/-- Witness of C7 on a predicate file of one line, for `run_retree`. -/
theorem report_rows_are_eight_comma_joined_fields_witness :
    ((∀ path, one_predicate_env.file path ≠ none) ∧ (1 : Int) ≤ ({} : Config).times) ∧
      ∃ w' predicates latencies, run_retree one_predicate_env {} initial_world = .ok w' ∧
        latencies.length = predicates.length ∧
        w'.cout = initial_world.cout ++ (List.zipWith (fun predicate latency =>
          ",".toList.intercalate [({} : Config).workload, ({} : Config).model,
            ({} : Config).model_type, predicate, ({} : Config).scale, ({} : Config).thread,
            int_text ({} : Config).optimization_level,
            one_predicate_env.double_text latency] ++ "\n".toList) predicates latencies).flatten ∧
        w'.outputfile = initial_world.outputfile ++ (List.zipWith (fun predicate latency =>
          ",".toList.intercalate [({} : Config).workload, ({} : Config).model,
            ({} : Config).model_type, predicate, ({} : Config).scale, ({} : Config).thread,
            int_text ({} : Config).optimization_level,
            one_predicate_env.double_text latency] ++ "\n".toList) predicates latencies).flatten :=
  ⟨⟨one_predicate_env_files, by decide⟩,
    (report_rows_are_eight_comma_joined_fields one_predicate_env {} initial_world
      one_predicate_env_files).1 (by decide)⟩

theorem average_finite (records : List ℚ) (h3 : 3 ≤ records.length)
    (hsize : records.length < 2 ^ 64) : ∃ q, average records = .ok (some q) := by
  have hne : records ≠ [] := by
    intro h; rw [h] at h3; simp at h3
  obtain ⟨mx, -, m1, b1⟩ := max_element_spec records hne
  obtain ⟨mn, -, m2, b2⟩ := min_element_spec records hne
  exact ⟨_, average_of_extremes records mx mn h3 hsize ⟨m1, b1⟩ ⟨m2, b2⟩⟩

theorem size_minus_two_ten : size_minus_two 10 = 8 := by
  have hpow : (2 : Nat) ^ 64 = 18446744073709551616 := by norm_num
  rw [size_minus_two, hpow]

theorem parse_n_flag :
    parse_args ["run_selectivity".toList, "-n".toList, "5".toList] = .error Err.usage := by
  simp [parse_args, getopt_events, getopt_lookup, parse_args_loop]

/-- Claim C9: on every command line on which `parse_args` returns a `Config`,
the trial count is `times = 10` and `getopt` has returned no `'n'` (the
command line `-n 5` ends in the usage exit). Hence, when every file can be
read, a `run_retree` or `run_smart` run started from `main` returns normally,
issues each predicate's query exactly 10 times, and the latency of each row is
the average of the trial record of the 10 samples measured around those 10
issues; every such record holds exactly 10 samples, its denominator
`records.size() - 2` is 8, and its average is a finite quotient: the zero
denominator is unreachable. -/
theorem parsed_trial_count_is_ten (argv : List Str) (config : Config)
    (hparse : parse_args argv = .ok config) :
    config.times = 10 ∧
      (∀ optarg, ('n', optarg) ∉ getopt_events "t:w:o:m:s:n:d:".toList [] argv.tail) ∧
      parse_args ["run_selectivity".toList, "-n".toList, "5".toList] = .error Err.usage ∧
      ∀ (env : Env) (w : World), (∀ path, env.file path ≠ none) →
        (config.optimization_level ≤ 2 → config.debug = 0 →
          ∃ w', main env argv w = .ok w' ∧
            w'.queries = w.queries ++ preamble env
              ++ (retree_rules config.optimization_level).map (contents env)
              ++ data_and_threads env
                { config with model_type := "dt".toList, thread := "1".toList }
              ++ ((predicates_of env config).map (fun p => List.replicate 10
                (query_of env config p))).flatten ∧
            w'.cout = w.cout ++ (List.zipWith
              (report_row env { config with model_type := "dt".toList, thread := "1".toList })
              (predicates_of env config)
              ((trial_records env 10 ((predicates_of env config).map (query_of env config))
                (w.queries ++ preamble env
                  ++ (retree_rules config.optimization_level).map (contents env)
                  ++ data_and_threads env
                    { config with model_type := "dt".toList, thread := "1".toList })).map
                latency_of)).flatten) ∧
        (config.optimization_level > 2 →
          ∃ w', main env argv w = .ok w' ∧
            w'.queries = w.queries ++ preamble env
              ++ data_and_threads env
                { config with model_type := "dt".toList, thread := "1".toList }
              ++ ((predicates_of env config).map (fun p => List.replicate 10
                (smart_query_of env config p))).flatten ∧
            w'.cout = w.cout ++ (List.zipWith
              (report_row env { config with model_type := "dt".toList, thread := "1".toList })
              (predicates_of env config)
              ((trial_records env 10
                ((predicates_of env config).map (smart_query_of env config))
                (w.queries ++ preamble env
                  ++ data_and_threads env
                    { config with model_type := "dt".toList, thread := "1".toList })).map
                latency_of)).flatten) ∧
        ∀ (sqls history : List Str),
          (trial_records env 10 sqls history).length = sqls.length ∧
          ∀ r ∈ trial_records env 10 sqls history, r.length = 10 ∧
            size_minus_two r.length = 8 ∧
            ∃ q, average r = .ok (some q) ∧ latency_of r = some q := by
  have htimes : config.times = 10 := parse_args_loop_times _ _ _ hparse
  have h10 : config.times.toNat = 10 := by rw [htimes]; rfl
  refine ⟨htimes, ?_, parse_n_flag, ?_⟩
  · intro optarg hmem
    have := parse_args_loop_usage _ {} ⟨optarg, hmem⟩
    unfold parse_args at hparse
    rw [this] at hparse
    cases hparse
  · intro env w hfiles
    refine ⟨?_, ?_, ?_⟩
    · intro hlevel hdebug
      rw [main_dispatch env argv w config hparse, if_pos hlevel, if_pos hdebug]
      have h := run_retree_records env
        { config with model_type := "dt".toList, thread := "1".toList } w hfiles
        (by show 1 ≤ config.times; omega)
      have h10' : ({ config with model_type := "dt".toList, thread := "1".toList } :
          Config).times.toNat = 10 := h10
      rw [h10'] at h
      exact ⟨_, h, rfl, rfl⟩
    · intro hlevel
      rw [main_dispatch env argv w config hparse, if_neg (by omega)]
      have h := run_smart_records env
        { config with model_type := "dt".toList, thread := "1".toList } w hfiles
        (by show 1 ≤ config.times; omega)
      have h10' : ({ config with model_type := "dt".toList, thread := "1".toList } :
          Config).times.toNat = 10 := h10
      rw [h10'] at h
      exact ⟨_, h, rfl, rfl⟩
    · intro sqls history
      refine ⟨trial_records_length env 10 sqls history, ?_⟩
      intro r hr
      have hlen : r.length = 10 := trial_records_mem_length env 10 sqls history r hr
      obtain ⟨q, hq⟩ := average_finite r (by omega) (by rw [hlen]; norm_num)
      refine ⟨hlen, by rw [hlen]; exact size_minus_two_ten, q, hq, ?_⟩
      rw [latency_of, hq]

theorem parse_no_flag : parse_args ["run_selectivity".toList] = .ok {} := by
  simp [parse_args, getopt_events, parse_args_loop]

/-- Witness of C9 on the command line without flags, a `run_smart` run. -/
theorem parsed_trial_count_is_ten_witness :
    (parse_args ["run_selectivity".toList] = .ok {} ∧
        (∀ path, one_predicate_env.file path ≠ none) ∧
        ({} : Config).optimization_level > 2) ∧
      ({} : Config).times = 10 ∧
      ∃ w', main one_predicate_env ["run_selectivity".toList] initial_world = .ok w' ∧
        w'.queries = initial_world.queries ++ preamble one_predicate_env
          ++ data_and_threads one_predicate_env
            { ({} : Config) with model_type := "dt".toList, thread := "1".toList }
          ++ ((predicates_of one_predicate_env {}).map (fun p => List.replicate 10
            (smart_query_of one_predicate_env {} p))).flatten ∧
        w'.cout = initial_world.cout ++ (List.zipWith
          (report_row one_predicate_env
            { ({} : Config) with model_type := "dt".toList, thread := "1".toList })
          (predicates_of one_predicate_env {})
          ((trial_records one_predicate_env 10
            ((predicates_of one_predicate_env {}).map (smart_query_of one_predicate_env {}))
            (initial_world.queries ++ preamble one_predicate_env
              ++ data_and_threads one_predicate_env
                { ({} : Config) with model_type := "dt".toList, thread := "1".toList })).map
            latency_of)).flatten :=
  ⟨⟨parse_no_flag, one_predicate_env_files, by decide⟩,
    (parsed_trial_count_is_ten _ _ parse_no_flag).1,
    ((parsed_trial_count_is_ten _ _ parse_no_flag).2.2.2 one_predicate_env initial_world
      one_predicate_env_files).2.1 (by decide)⟩

/-! ## Which files are rule scripts -/

theorem parse_level_wraps :
    parse_args ["run_selectivity".toList, "-o".toList, "4294967297".toList]
      = .ok { optimization_level := 1 } := by
  simp [parse_args, getopt_events, getopt_lookup, parse_args_loop, atoi, isspace]

end RunSelectivity
